import Mathlib

/-!
Verification of the `dtoolkit` Flattened-Device-Tree library against its
design specification.

The development shallowly embeds the Rust sources:

* byte buffers are `List Nat` (each entry one byte),
* fallible Rust functions return `Except`,
* machine integers are `Nat` with explicit bounds where overflow matters,
* stateful iterators become explicit recursion (with a fuel parameter where
  the recursion is not structural; callers pass fuel that is provably
  sufficient, mirroring terminating Rust loops).

Functions are translated from the repository sources.  A few helpers of the
read path (`align_tag_offset`, `read_token`, `find_string_end`,
`string_at_offset`, the strings-block resolver, `next_sibling_offset`,
`next_property_offset`, `root`, `memory_reservations`) and the owned
`DeviceTreeNode` type are declared by the sources but their defining file is
not part of the snapshot; those are modelled from the specification and say
so in their doc comment.
-/

namespace Dtoolkit

/-! ## Cell codec (spec 4.1, src/fdt/mod.rs, src/model/writer.rs) -/

/-- Modelled from the spec: `align4(n) → n rounded up to multiple of 4`
(`Fdt::align_tag_offset` in the sources; its defining revision of
`src/fdt/mod.rs` is not in the snapshot). -/
def alignTag (n : Nat) : Nat := (n + 3) / 4 * 4

/-- Big-endian encoding of a `u32` value (zerocopy `big_endian::U32`). -/
def be32 (v : Nat) : List Nat :=
  [v / 2 ^ 24 % 256, v / 2 ^ 16 % 256, v / 2 ^ 8 % 256, v % 256]

/-- Big-endian encoding of a `u64` value (zerocopy `big_endian::U64`). -/
def be64 (v : Nat) : List Nat :=
  [v / 2 ^ 56 % 256, v / 2 ^ 48 % 256, v / 2 ^ 40 % 256, v / 2 ^ 32 % 256,
   v / 2 ^ 24 % 256, v / 2 ^ 16 % 256, v / 2 ^ 8 % 256, v % 256]

/-- Reads a big-endian `u32` at byte offset `off`; `none` when fewer than 4
bytes remain (`read_u32_be`, spec 4.1). -/
def readU32 (data : List Nat) (off : Nat) : Option Nat :=
  match data.drop off with
  | b0 :: b1 :: b2 :: b3 :: _ => some (((b0 * 256 + b1) * 256 + b2) * 256 + b3)
  | _ => none

/-- Reads a big-endian `u64` at byte offset `off` (`read_u64_be`, spec 4.1). -/
def readU64 (data : List Nat) (off : Nat) : Option Nat :=
  match data.drop off with
  | b0 :: b1 :: b2 :: b3 :: b4 :: b5 :: b6 :: b7 :: _ =>
      some (((((((b0 * 256 + b1) * 256 + b2) * 256 + b3) * 256 + b4) * 256 + b5) * 256
        + b6) * 256 + b7)
  | _ => none

/-! ## Error types (src/error.rs) -/

/-- `FdtErrorKind` from src/error.rs. -/
inductive FdtErrorKind where
  | InvalidMagic
  | UnsupportedVersion (v : Nat)
  | InvalidLength
  | InvalidHeader (reason : String)
  | BadToken (word : Nat)
  | InvalidOffset
  | InvalidString
  | MemReserveNotTerminated
  | MemReserveInvalid
deriving DecidableEq, Repr

/-- `FdtParseError` from src/error.rs: an error kind together with the byte
offset at which the problem was detected.  (The read-path files of the
snapshot call this type `FdtError`; both revisions carry the same data.) -/
structure FdtError where
  offset : Nat
  kind : FdtErrorKind
deriving DecidableEq, Repr

/-- `FdtParseError::new` from src/error.rs. -/
def FdtError.new (kind : FdtErrorKind) (offset : Nat) : FdtError :=
  ⟨offset, kind⟩

/-- `StandardError` from src/error.rs (variants used by the claims). -/
inductive StandardError where
  | InvalidStatus
  | CpusMissing
  | CpuMissingReg
  | MemoryMissing
  | PropEncodedArraySizeMismatch (size : Nat) (chunk : Nat)
  | TooManyCells (cells : Nat)
  | InvalidLength
  | InvalidString
deriving DecidableEq, Repr

/-- Error variants used by `Reg::address` / `Reg::size` in
src/standard/reg.rs (that file names them `FdtError::AddressTooBig` and
`FdtError::SizeTooBig`; the error-enum revision in the snapshot does not
carry them, so they are embedded as their own small type). -/
inductive RegError where
  | AddressTooBig (cells : Nat)
  | SizeTooBig (cells : Nat)
deriving DecidableEq, Repr

/-! ## Status (src/standard/status.rs) -/

/-- `Status` from src/standard/status.rs. -/
inductive Status where
  | Okay
  | Disabled
  | Reserved
  | Fail
  | FailSss
deriving DecidableEq, Repr

/-- `Status::from_str` from src/standard/status.rs, lines 52-61 (note the
source string literal for the `Disabled` variant). -/
def Status.fromStr (s : String) : Except StandardError Status :=
  match s with
  | "okay" => .ok .Okay
  | "disadbled" => .ok .Disabled
  | "reserved" => .ok .Reserved
  | "fail" => .ok .Fail
  | "fail-sss" => .ok .FailSss
  | _ => .error .InvalidStatus

/-! ## Cells and Reg (src/lib.rs lines 473-489, src/standard/reg.rs) -/

/-- `Cells::to_int::<T>` from src/lib.rs lines 473-489.  The target unsigned
integer type `T` is represented by its byte width `sizeT`; the cell slice by
the list of its `u32` values.  `value << 32 | cell` on an unsigned `T` wide
enough for all cells never overflows, so `Nat` shifts model it exactly. -/
def Cells.toInt (sizeT : Nat) (cells : List Nat) : Except StandardError Nat :=
  if sizeT < cells.length * 4 then
    .error (.TooManyCells cells.length)
  else
    match cells with
    | [c] => .ok c
    | _ => .ok (cells.foldl (fun value cell => value <<< 32 ||| cell) 0)

/-- `Reg` from src/standard/reg.rs: address cells and size cells. -/
structure Reg where
  address : List Nat
  size : List Nat
deriving DecidableEq, Repr

/-- `Reg::address::<T>` from src/standard/reg.rs lines 31-47:
`(value << 32) | cell` accumulated left-to-right. -/
def Reg.addr (sizeT : Nat) (r : Reg) : Except RegError Nat :=
  if sizeT < r.address.length * 4 then
    .error (.AddressTooBig r.address.length)
  else
    match r.address with
    | [a] => .ok a
    | _ => .ok (r.address.foldl (fun value cell => value <<< 32 ||| cell) 0)

/-- `Reg::size::<T>` from src/standard/reg.rs lines 54-70.  The accumulation
in the source is `value << size_of::<u32>() | cell.get().into()`, and
`size_of::<u32>()` is 4, so the multi-cell path shifts by 4 bits. -/
def Reg.sz (sizeT : Nat) (r : Reg) : Except RegError Nat :=
  if sizeT < r.size.length * 4 then
    .error (.SizeTooBig r.size.length)
  else
    match r.size with
    | [s] => .ok s
    | _ => .ok (r.size.foldl (fun value cell => value <<< 4 ||| cell) 0)

/-! ## Strings: NUL search and UTF-8 validation -/

/-- Index of the first NUL byte of a list, if any (`CStr` search). -/
def findNul : List Nat → Option Nat
  | [] => none
  | 0 :: _ => some 0
  | _ :: rest =>
    match findNul rest with
    | some i => some (i + 1)
    | none => none

/-- Whether a byte is a UTF-8 continuation byte (`0x80..=0xBF`). -/
def isCont (b : Nat) : Bool := 0x80 ≤ b && b ≤ 0xBF

/-- Whether a byte sequence is valid UTF-8, exactly as Rust's `str`
validation accepts it (shortest forms only, surrogates excluded). -/
def validUtf8 : List Nat → Bool
  | [] => true
  | b :: rest =>
    if b ≤ 0x7F then validUtf8 rest
    else if 0xC2 ≤ b && b ≤ 0xDF then
      match rest with
      | b1 :: rest1 => isCont b1 && validUtf8 rest1
      | [] => false
    else if b = 0xE0 then
      match rest with
      | b1 :: b2 :: rest2 => (0xA0 ≤ b1 && b1 ≤ 0xBF) && isCont b2 && validUtf8 rest2
      | _ => false
    else if (0xE1 ≤ b && b ≤ 0xEC) || b = 0xEE || b = 0xEF then
      match rest with
      | b1 :: b2 :: rest2 => isCont b1 && isCont b2 && validUtf8 rest2
      | _ => false
    else if b = 0xED then
      match rest with
      | b1 :: b2 :: rest2 => (0x80 ≤ b1 && b1 ≤ 0x9F) && isCont b2 && validUtf8 rest2
      | _ => false
    else if b = 0xF0 then
      match rest with
      | b1 :: b2 :: b3 :: rest3 =>
          (0x90 ≤ b1 && b1 ≤ 0xBF) && isCont b2 && isCont b3 && validUtf8 rest3
      | _ => false
    else if 0xF1 ≤ b && b ≤ 0xF3 then
      match rest with
      | b1 :: b2 :: b3 :: rest3 => isCont b1 && isCont b2 && isCont b3 && validUtf8 rest3
      | _ => false
    else if b = 0xF4 then
      match rest with
      | b1 :: b2 :: b3 :: rest3 =>
          (0x80 ≤ b1 && b1 ≤ 0x8F) && isCont b2 && isCont b3 && validUtf8 rest3
      | _ => false
    else false

/-! ## FDT header (src/fdt/mod.rs) -/

/-- `FDT_MAGIC` from src/fdt/mod.rs line 28. -/
def FDT_MAGIC : Nat := 0xd00dfeed

/-- `FDT_VERSION` from src/fdt/mod.rs line 27. -/
def FDT_VERSION : Nat := 17

/-- Modelled from the spec: the structure-block token values of spec section 3
(`FDT_BEGIN_NODE` and friends; the revision of src/fdt/mod.rs that declares
them is not in the snapshot, but src/model/writer.rs imports them). -/
def FDT_BEGIN_NODE : Nat := 0x1

/-- Modelled from the spec: `FDT_END_NODE` token value (spec section 3). -/
def FDT_END_NODE : Nat := 0x2

/-- Modelled from the spec: `FDT_PROP` token value (spec section 3). -/
def FDT_PROP : Nat := 0x3

/-- Modelled from the spec: `FDT_NOP` token value (spec section 3). -/
def FDT_NOP : Nat := 0x4

/-- Modelled from the spec: `FDT_END` token value (spec section 3). -/
def FDT_END : Nat := 0x9

/-- Modelled from the spec: tokens are big-endian u32, so `FDT_TAGSIZE`
(imported from `crate::fdt` by the writer) is 4. -/
def FDT_TAGSIZE : Nat := 4

/-- `Fdt` from src/fdt/mod.rs line 99: a zero-copy view of a byte buffer. -/
structure Fdt where
  data : List Nat
deriving DecidableEq, Repr

/-- A header field: big-endian u32 at a fixed offset of the buffer.
`Fdt::header()` is infallible after `new` checked the length, so missing
bytes decode as 0 here (that case is unreachable on accepted buffers). -/
def headerField (data : List Nat) (off : Nat) : Nat :=
  (readU32 data off).getD 0

/-- `FdtHeader::magic` (byte offset 0). -/
def Fdt.magic (f : Fdt) : Nat := headerField f.data 0

/-- `FdtHeader::totalsize` (byte offset 4). -/
def Fdt.totalsize (f : Fdt) : Nat := headerField f.data 4

/-- `FdtHeader::off_dt_struct` (byte offset 8). -/
def Fdt.off_dt_struct (f : Fdt) : Nat := headerField f.data 8

/-- `FdtHeader::off_dt_strings` (byte offset 12). -/
def Fdt.off_dt_strings (f : Fdt) : Nat := headerField f.data 12

/-- `FdtHeader::off_mem_rsvmap` (byte offset 16). -/
def Fdt.off_mem_rsvmap (f : Fdt) : Nat := headerField f.data 16

/-- `FdtHeader::version` (byte offset 20). -/
def Fdt.version (f : Fdt) : Nat := headerField f.data 20

/-- `FdtHeader::last_comp_version` (byte offset 24). -/
def Fdt.last_comp_version (f : Fdt) : Nat := headerField f.data 24

/-- `FdtHeader::boot_cpuid_phys` (byte offset 28). -/
def Fdt.boot_cpuid_phys (f : Fdt) : Nat := headerField f.data 28

/-- `FdtHeader::size_dt_strings` (byte offset 32). -/
def Fdt.size_dt_strings (f : Fdt) : Nat := headerField f.data 32

/-- `FdtHeader::size_dt_struct` (byte offset 36). -/
def Fdt.size_dt_struct (f : Fdt) : Nat := headerField f.data 36

/-- `Fdt::validate_header` from src/fdt/mod.rs lines 199-247.  The source's
`saturating_add` on `usize` never saturates for u32-valued fields, so plain
`Nat` addition models it. -/
def Fdt.validateHeader (f : Fdt) : Except FdtError Unit :=
  if f.off_mem_rsvmap > f.off_dt_struct then
    .error (.new (.InvalidHeader "dt_struct not after memrsvmap") 16)
  else if f.off_dt_struct > f.data.length then
    .error (.new (.InvalidHeader "struct offset out of bounds") 8)
  else if f.off_dt_strings > f.data.length then
    .error (.new (.InvalidHeader "strings offset out of bounds") 12)
  else if f.off_dt_struct + f.size_dt_struct > f.data.length then
    .error (.new (.InvalidHeader "struct block overflows") 36)
  else if f.off_dt_strings + f.size_dt_strings > f.data.length then
    .error (.new (.InvalidHeader "strings block overflows") 32)
  else if f.off_dt_struct + f.size_dt_struct > f.off_dt_strings then
    .error (.new (.InvalidHeader "strings block not after struct block") 12)
  else
    .ok ()

/-- `Fdt::new` from src/fdt/mod.rs lines 128-159.  The header is 40 bytes;
the byte offsets of `magic` and `version` are 0 and 20.  The version check is
`(last_comp_version..=version).contains(&FDT_VERSION)`. -/
def Fdt.new (data : List Nat) : Except FdtError Fdt :=
  if data.length < 40 then
    .error (.new .InvalidLength 0)
  else if (Fdt.mk data).magic ≠ FDT_MAGIC then
    .error (.new .InvalidMagic 0)
  else if ¬ ((Fdt.mk data).last_comp_version ≤ FDT_VERSION ∧
      FDT_VERSION ≤ (Fdt.mk data).version) then
    .error (.new (.UnsupportedVersion (Fdt.mk data).version) 20)
  else if (Fdt.mk data).totalsize ≠ data.length then
    .error (.new .InvalidLength 4)
  else
    match (Fdt.mk data).validateHeader with
    | .error e => .error e
    | .ok _ => .ok (Fdt.mk data)

/-! ## Tokenizer and structural navigation (spec 4.3, src/fdt/node.rs,
src/fdt/property.rs) -/

/-- A structure-block token. -/
inductive FdtToken where
  | BeginNode
  | EndNode
  | Prop
  | Nop
  | End
deriving DecidableEq, Repr

/-- Modelled from the spec: `read_token(off) → Token` reads the u32 at `off`;
unknown values fail with `BadToken`, reads past the end with
`InvalidOffset` (spec 4.1 and 4.3; the declaring revision of src/fdt/mod.rs
is not in the snapshot, src/fdt/node.rs and src/fdt/property.rs call it). -/
def readToken (data : List Nat) (off : Nat) : Except FdtError FdtToken :=
  match readU32 data off with
  | none => .error (.new .InvalidOffset off)
  | some w =>
    if w = FDT_BEGIN_NODE then .ok .BeginNode
    else if w = FDT_END_NODE then .ok .EndNode
    else if w = FDT_PROP then .ok .Prop
    else if w = FDT_NOP then .ok .Nop
    else if w = FDT_END then .ok .End
    else .error (.new (.BadToken w) off)

/-- Modelled from the spec: `find_string_end(off) → offset of NUL + 1`,
failing with `InvalidString` on a missing NUL (spec 4.3). -/
def findStringEnd (data : List Nat) (off : Nat) : Except FdtError Nat :=
  match findNul (data.drop off) with
  | some i => .ok (off + i + 1)
  | none => .error (.new .InvalidString off)

/-- Modelled from the spec: `read_string(off)` (called `string_at_offset` by
src/fdt/node.rs) reads bytes until NUL and validates UTF-8, failing with
`InvalidString` (spec 4.3). -/
def stringAtOffset (data : List Nat) (off : Nat) : Except FdtError (List Nat) :=
  match findNul (data.drop off) with
  | none => .error (.new .InvalidString off)
  | some i =>
    let s := (data.drop off).take i
    if validUtf8 s then .ok s else .error (.new .InvalidString off)

/-- Modelled from the spec: `resolve_name_offset(nameoff)` (called
`Fdt::string` by src/fdt/property.rs) reads the NUL-terminated string at
`off_dt_strings + nameoff`, bounds checked against `size_dt_strings`
(spec 4.3). -/
def Fdt.string (f : Fdt) (nameoff : Nat) : Except FdtError (List Nat) :=
  if f.size_dt_strings ≤ nameoff then
    .error (.new .InvalidOffset (f.off_dt_strings + nameoff))
  else
    let region := (f.data.drop (f.off_dt_strings + nameoff)).take
      (f.size_dt_strings - nameoff)
    match findNul region with
    | none => .error (.new .InvalidString (f.off_dt_strings + nameoff))
    | some i =>
      let s := region.take i
      if validUtf8 s then .ok s
      else .error (.new .InvalidString (f.off_dt_strings + nameoff))

/-- Modelled from the spec: `next_property_offset` takes the offset of a
`PROP` record's `len` field, reads `len` and returns
`align4(lenOff + 8 + len)`, the offset of the token after the property
(spec 4.3, property iterator rule 3; matches the cursor arithmetic of
src/fdt/property.rs lines 127-137). -/
def nextPropertyOffset (data : List Nat) (lenOff : Nat) : Except FdtError Nat :=
  match readU32 data lenOff with
  | none => .error (.new .InvalidOffset lenOff)
  | some len => .ok (alignTag (lenOff + 8 + len))

/-- Modelled from the spec: the subtree-skip walk of spec 4.3 with a depth
counter; `BEGIN_NODE` increments, `END_NODE` decrements, properties are
skipped via their length, `NOP` is consumed; ends when an `END_NODE` returns
the depth to 0; depth underflow and `END` inside a node are `BadToken`.
The fuel argument only bounds the loop; every caller passes provably enough. -/
def skipSubtree (data : List Nat) : Nat → Nat → Nat → Except FdtError Nat
  | off, _, 0 => .error (.new .InvalidOffset off)
  | off, depth, fuel + 1 =>
    match readToken data off with
    | .error e => .error e
    | .ok .BeginNode =>
      match findStringEnd data (off + FDT_TAGSIZE) with
      | .error e => .error e
      | .ok e => skipSubtree data (alignTag e) (depth + 1) fuel
    | .ok .EndNode =>
      if depth = 1 then .ok (off + FDT_TAGSIZE)
      else if depth = 0 then .error (.new (.BadToken FDT_END_NODE) off)
      else skipSubtree data (off + FDT_TAGSIZE) (depth - 1) fuel
    | .ok .Prop =>
      match nextPropertyOffset data (off + FDT_TAGSIZE) with
      | .error e => .error e
      | .ok off2 => skipSubtree data off2 depth fuel
    | .ok .Nop => skipSubtree data (off + FDT_TAGSIZE) depth fuel
    | .ok .End => .error (.new (.BadToken FDT_END) off)

/-- Modelled from the spec: `next_sibling_offset` advances past a whole
subtree to the token after its matching `END_NODE` (spec 4.3, child iterator
rule 3). -/
def nextSiblingOffset (data : List Nat) (off : Nat) : Except FdtError Nat :=
  skipSubtree data off 0 data.length

/-- The iterators of src/fdt/node.rs and src/fdt/property.rs start right
after the node's `BEGIN_NODE` token and NUL-terminated name, aligned up
(`offset += FDT_TAGSIZE; find_string_end; align_tag_offset`). -/
def nodeBodyOffset (data : List Nat) (off : Nat) : Except FdtError Nat :=
  match findStringEnd data (off + FDT_TAGSIZE) with
  | .error e => .error e
  | .ok e => .ok (alignTag e)

/-- `FdtProperty` from src/fdt/property.rs (the `value_offset` field takes no
part in comparisons or materialization and is dropped). -/
structure FdtProperty where
  name : List Nat
  value : List Nat
deriving DecidableEq, Repr

/-- The property iterator of src/fdt/property.rs lines 122-153, run to
completion from the node-body offset: `PROP` records are decoded (`len` at
`off+4`, `nameoff` at `off+8`, value slice of `len` bytes at `off+12`, name
resolved in the strings block), `NOP` is skipped, any other token stops the
iteration.  The source's `expect` calls (unreachable on a validated blob)
are modelled as errors. -/
def collectProps (f : Fdt) : Nat → Nat → Except FdtError (List FdtProperty)
  | off, 0 => .error (.new .InvalidOffset off)
  | off, fuel + 1 =>
    match readToken f.data off with
    | .error e => .error e
    | .ok .Prop =>
      match readU32 f.data (off + FDT_TAGSIZE),
            readU32 f.data (off + 2 * FDT_TAGSIZE) with
      | some len, some nameoff =>
        let propOff := off + 3 * FDT_TAGSIZE
        match f.string nameoff with
        | .error e => .error e
        | .ok name =>
          if propOff + len ≤ f.data.length then
            match collectProps f (alignTag (propOff + len)) fuel with
            | .error e => .error e
            | .ok rest => .ok (⟨name, (f.data.drop propOff).take len⟩ :: rest)
          else .error (.new .InvalidOffset propOff)
      | _, _ => .error (.new .InvalidOffset off)
    | .ok .Nop => collectProps f (off + FDT_TAGSIZE) fuel
    | .ok _ => .ok []

/-- The child iterator of src/fdt/node.rs lines 280-310, run to completion
from the node-body offset: each `BEGIN_NODE` yields that offset and skips the
subtree, `PROP` is skipped via its length, `NOP` via its tag, `END_NODE` and
`END` stop.  (The iterator also threads the parent address space down to each
child; that bookkeeping does not influence materialization and is omitted.) -/
def collectChildOffsets (data : List Nat) : Nat → Nat → Except FdtError (List Nat)
  | off, 0 => .error (.new .InvalidOffset off)
  | off, fuel + 1 =>
    match readToken data off with
    | .error e => .error e
    | .ok .BeginNode =>
      match nextSiblingOffset data off with
      | .error e => .error e
      | .ok next =>
        match collectChildOffsets data next fuel with
        | .error e => .error e
        | .ok rest => .ok (off :: rest)
    | .ok .Prop =>
      match nextPropertyOffset data (off + FDT_TAGSIZE) with
      | .error e => .error e
      | .ok off2 => collectChildOffsets data off2 fuel
    | .ok .Nop => collectChildOffsets data (off + FDT_TAGSIZE) fuel
    | .ok _ => .ok []

/-! ## Memory reservations (src/memreserve.rs, spec 4.6) -/

/-- `MemoryReservation` from src/memreserve.rs: a pair of big-endian u64
values. -/
structure MemoryReservation where
  address : Nat
  size : Nat
deriving DecidableEq, Repr

/-- Modelled from the spec: the memory-reservation walk of spec 4.6 in
16-byte strides from `off_mem_rsvmap`; a (0,0) entry terminates; an entry
that would extend past `off_dt_struct` without a terminator is
`MemReserveNotTerminated`. -/
def memResLoop (data : List Nat) (stop : Nat) :
    Nat → Nat → Except FdtError (List MemoryReservation)
  | off, 0 => .error (.new .InvalidOffset off)
  | off, fuel + 1 =>
    if stop < off + 16 then .error (.new .MemReserveNotTerminated off)
    else
      match readU64 data off, readU64 data (off + 8) with
      | some a, some s =>
        if a = 0 ∧ s = 0 then .ok []
        else
          match memResLoop data stop (off + 16) fuel with
          | .error e => .error e
          | .ok rest => .ok (⟨a, s⟩ :: rest)
      | _, _ => .error (.new .InvalidOffset off)

/-- Modelled from the spec: `memory_reservations()` walks from
`off_mem_rsvmap`; a misaligned `off_mem_rsvmap` is `MemReserveInvalid`
(spec 4.6). -/
def Fdt.memoryReservations (f : Fdt) : Except FdtError (List MemoryReservation) :=
  if f.off_mem_rsvmap % 8 ≠ 0 then
    .error (.new .MemReserveInvalid f.off_mem_rsvmap)
  else
    memResLoop f.data f.off_dt_struct f.off_mem_rsvmap (f.data.length + 1)

/-- Modelled from the spec: `Fdt::root()` is the node view at
`off_dt_struct`; the structure block must open with the root `BEGIN_NODE`
(spec 4.9: initial state is right after the root `BEGIN_NODE`). -/
def Fdt.root (f : Fdt) : Except FdtError Nat :=
  match readU32 f.data f.off_dt_struct with
  | none => .error (.new .InvalidOffset f.off_dt_struct)
  | some w =>
    if w = FDT_BEGIN_NODE then .ok f.off_dt_struct
    else .error (.new (.BadToken w) f.off_dt_struct)

/-! ## Owned tree (src/model, spec 4.7) -/

/-- `DeviceTreeProperty` from src/model/property.rs: an owned name and
value.  Strings are embedded as their UTF-8 bytes. -/
structure DeviceTreeProperty where
  name : List Nat
  value : List Nat
deriving DecidableEq, Repr

/-- Modelled from the spec: the owned node of spec 3 and 4.7 — a name, an
insertion-ordered property sequence and an insertion-ordered child sequence
(src/model/node.rs is not in the snapshot; src/model/mod.rs and
src/model/writer.rs consume exactly the name / properties / children
projections below). -/
inductive DeviceTreeNode where
  | mk (name : List Nat) (properties : List DeviceTreeProperty)
      (children : List DeviceTreeNode)

/-- The node's name. -/
def DeviceTreeNode.name : DeviceTreeNode → List Nat
  | .mk n _ _ => n

/-- The node's properties in insertion order. -/
def DeviceTreeNode.properties : DeviceTreeNode → List DeviceTreeProperty
  | .mk _ ps _ => ps

/-- The node's children in insertion order. -/
def DeviceTreeNode.children : DeviceTreeNode → List DeviceTreeNode
  | .mk _ _ cs => cs

/-- Modelled from the spec: `DeviceTreeNode::new(name)` builds a node with
the given name and no properties or children (doc examples of
src/model/mod.rs). -/
def DeviceTreeNode.new (name : List Nat) : DeviceTreeNode :=
  .mk name [] []

/-- `DeviceTree` from src/model/mod.rs lines 43-48. -/
structure DeviceTree where
  root : DeviceTreeNode
  memory_reservations : List MemoryReservation

/-- `DeviceTree::new` from src/model/mod.rs lines 60-65: the root node is
`DeviceTreeNode::new("/")` (the byte 0x2F) and the reservation list is
empty. -/
def DeviceTree.new : DeviceTree :=
  ⟨DeviceTreeNode.new [0x2F], []⟩

/-- `DeviceTreeProperty::try_from::<FdtProperty>` from src/model/property.rs
lines 72-81: copies name and value. -/
def tryFromProp (p : FdtProperty) : DeviceTreeProperty :=
  ⟨p.name, p.value⟩

mutual

/-- Modelled from the spec: `from_read_view` materializes a read-view node
by recursive copy of its name, property bytes and children (spec 4.7;
`DeviceTreeNode::try_from::<FdtNode>` lives in the missing
src/model/node.rs).  Name and iterators are those of src/fdt/node.rs.  The
fuel bounds the nesting depth; callers pass provably enough. -/
def parseNode (f : Fdt) : Nat → Nat → Except FdtError DeviceTreeNode
  | off, 0 => .error (.new .InvalidOffset off)
  | off, fuel + 1 =>
    match stringAtOffset f.data (off + FDT_TAGSIZE) with
    | .error e => .error e
    | .ok name =>
      match nodeBodyOffset f.data off with
      | .error e => .error e
      | .ok body =>
        match collectProps f body (f.data.length + 1) with
        | .error e => .error e
        | .ok props =>
          match collectChildOffsets f.data body (f.data.length + 1) with
          | .error e => .error e
          | .ok offs =>
            match parseNodes f offs fuel with
            | .error e => .error e
            | .ok children => .ok (.mk name (props.map tryFromProp) children)

/-- Materializes each child offset in order. -/
def parseNodes (f : Fdt) : List Nat → Nat → Except FdtError (List DeviceTreeNode)
  | [], _ => .ok []
  | o :: os, fuel =>
    match parseNode f o fuel with
    | .error e => .error e
    | .ok n =>
      match parseNodes f os fuel with
      | .error e => .error e
      | .ok ns => .ok (n :: ns)

end

/-- `DeviceTree::from_fdt` from src/model/mod.rs lines 81-88: materialize the
root node, then collect the memory reservations. -/
def DeviceTree.fromFdt (f : Fdt) : Except FdtError DeviceTree :=
  match f.root with
  | .error e => .error e
  | .ok rootOff =>
    match parseNode f rootOff (f.data.length + 1) with
    | .error e => .error e
    | .ok root =>
      match f.memoryReservations with
      | .error e => .error e
      | .ok mrs => .ok ⟨root, mrs⟩

/-! ## Serializer (src/model/writer.rs) -/

/-- `StringMap` from src/model/writer.rs lines 184-226.  The Rust map is a
`BTreeMap<String, u32>`; it is embedded as the association list of its
entries in insertion order together with `next_offset`.  (Iteration order of
the Rust map differs, but its only iteration, `write_string_block`, first
sorts by the distinct offsets, which makes the emitted order independent of
the container order.) -/
structure StringMap where
  entries : List (List Nat × Nat)
  next_offset : Nat
deriving DecidableEq, Repr

/-- `StringMap::new`. -/
def StringMap.new : StringMap := ⟨[], 0⟩

/-- Association-list lookup (`BTreeMap::get`). -/
def StringMap.lookup (m : StringMap) (key : List Nat) : Option Nat :=
  match m.entries.find? (fun e => e.1 = key) with
  | some e => some e.2
  | none => none

/-- `StringMap::insert` from src/model/writer.rs lines 198-205: if the key is
absent, record it at `next_offset` and advance `next_offset` by
`len(key) + 1`. -/
def StringMap.insert (m : StringMap) (key : List Nat) : StringMap :=
  match m.lookup key with
  | some _ => m
  | none => ⟨m.entries ++ [(key, m.next_offset)], m.next_offset + key.length + 1⟩

/-- `StringMap::get_offset` from src/model/writer.rs lines 208-213.  The
source `expect`s presence (guaranteed by the size-calculation pass); a
missing key is modelled by offset 0, a case the correctness lemmas rule
out. -/
def StringMap.getOffset (m : StringMap) (key : List Nat) : Nat :=
  (m.lookup key).getD 0

/-- Insertion into a list sorted by assigned offset. -/
def insertByOffset (e : List Nat × Nat) : List (List Nat × Nat) → List (List Nat × Nat)
  | [] => [e]
  | x :: xs => if e.2 ≤ x.2 then e :: x :: xs else x :: insertByOffset e xs

/-- Sorting by assigned offset (`items.sort_unstable_by_key(offset)`; offsets
are distinct, so any sorting algorithm produces the same list). -/
def sortByOffset : List (List Nat × Nat) → List (List Nat × Nat)
  | [] => []
  | x :: xs => insertByOffset x (sortByOffset xs)

/-- `StringMap::write_string_block` from src/model/writer.rs lines 215-225:
emit the interned names in ascending assigned offset, each followed by a
NUL. -/
def StringMap.writeStringBlock (m : StringMap) (dtb : List Nat) : List Nat :=
  dtb ++ (sortByOffset m.entries).flatMap (fun e => e.1 ++ [0])

/-- `calculate_prop_size` from src/model/writer.rs lines 120-132: interns the
property name and charges `4 + 4 + 4 + align4(len(value))` bytes. -/
def calculatePropSize (m : StringMap) (p : DeviceTreeProperty) : StringMap × Nat :=
  (m.insert p.name, FDT_TAGSIZE + 4 + 4 + alignTag p.value.length)

/-- Folds `calculate_prop_size` over a node's properties. -/
def calculatePropsSize (m : StringMap) : List DeviceTreeProperty → StringMap × Nat
  | [] => (m, 0)
  | p :: ps =>
    let r := calculatePropSize m p
    let rs := calculatePropsSize r.1 ps
    (rs.1, r.2 + rs.2)

mutual

/-- `calculate_node_size` from src/model/writer.rs lines 100-118:
`4 + align4(len(name)+1)` plus the property records plus the child subtrees
plus the closing tag. -/
def calculateNodeSize (m : StringMap) : DeviceTreeNode → StringMap × Nat
  | .mk name props children =>
    let r := calculatePropsSize m props
    let rs := calculateNodesSize r.1 children
    (rs.1, FDT_TAGSIZE + alignTag (name.length + 1) + r.2 + rs.2 + FDT_TAGSIZE)

/-- Folds `calculate_node_size` over a child list. -/
def calculateNodesSize (m : StringMap) : List DeviceTreeNode → StringMap × Nat
  | [] => (m, 0)
  | c :: cs =>
    let r := calculateNodeSize m c
    let rs := calculateNodesSize r.1 cs
    (rs.1, r.2 + rs.2)

end

/-- The ten header fields as values (src/fdt/mod.rs `FdtHeader`). -/
structure FdtHeaderV where
  magic : Nat
  totalsize : Nat
  off_dt_struct : Nat
  off_dt_strings : Nat
  off_mem_rsvmap : Nat
  version : Nat
  last_comp_version : Nat
  boot_cpuid_phys : Nat
  size_dt_strings : Nat
  size_dt_struct : Nat
deriving DecidableEq, Repr

/-- The 40 header bytes in declaration order, each field big-endian
(`#[repr(C, packed)]` layout of `FdtHeader`). -/
def headerBytes (h : FdtHeaderV) : List Nat :=
  be32 h.magic ++ be32 h.totalsize ++ be32 h.off_dt_struct ++
    be32 h.off_dt_strings ++ be32 h.off_mem_rsvmap ++ be32 h.version ++
    be32 h.last_comp_version ++ be32 h.boot_cpuid_phys ++
    be32 h.size_dt_strings ++ be32 h.size_dt_struct

/-- `DeviceTree::generate_header` from src/model/writer.rs lines 57-98:
computes the block sizes (interning all property names on the way) and lays
the blocks out back to back after the 40-byte header.  The source converts
every field with `u32::try_from(..).expect(..)` — a fatal precondition, kept
as a side condition (`totalsize < 2^32`) in the theorems. -/
def DeviceTree.generateHeader (t : DeviceTree) : StringMap × FdtHeaderV :=
  let memSize := (t.memory_reservations.length + 1) * 16
  let r := calculateNodeSize StringMap.new t.root
  let dtStructSize := r.2 + FDT_TAGSIZE
  let dtStringsSize := r.1.next_offset
  let offMem := 40
  let offStruct := offMem + memSize
  let offStrings := offStruct + dtStructSize
  let total := offStrings + dtStringsSize
  (r.1,
    { magic := FDT_MAGIC
      totalsize := total
      off_dt_struct := offStruct
      off_dt_strings := offStrings
      off_mem_rsvmap := offMem
      version := 17
      last_comp_version := 16
      boot_cpuid_phys := 0
      size_dt_strings := total - offStrings
      size_dt_struct := offStrings - offStruct })

/-- `DeviceTree::align` from src/model/writer.rs lines 177-181: zero-pad the
buffer up to the next 4-byte boundary. -/
def padAlign (dtb : List Nat) : List Nat :=
  dtb ++ List.replicate (alignTag dtb.length - dtb.length) 0

/-- `write_memory_reservations` from src/model/writer.rs lines 134-139: every
entry big-endian, then the (0,0) terminator. -/
def writeMemoryReservations (dtb : List Nat) (rs : List MemoryReservation) : List Nat :=
  (dtb ++ rs.flatMap (fun r => be64 r.address ++ be64 r.size)) ++ (be64 0 ++ be64 0)

/-- `write_prop` from src/model/writer.rs lines 163-175: tag, value length,
interned name offset, the value bytes, zero padding to the boundary. -/
def writeProp (dtb : List Nat) (m : StringMap) (p : DeviceTreeProperty) : List Nat :=
  padAlign (dtb ++ be32 FDT_PROP ++ be32 p.value.length ++
    be32 (m.getOffset p.name) ++ p.value)

/-- Writes a node's properties in order. -/
def writeProps (dtb : List Nat) (m : StringMap) : List DeviceTreeProperty → List Nat
  | [] => dtb
  | p :: ps => writeProps (writeProp dtb m p) m ps

mutual

/-- `write_node` from src/model/writer.rs lines 146-161: `BEGIN_NODE`, the
name, NUL, padding; the properties; the child subtrees; `END_NODE`. -/
def writeNode (dtb : List Nat) (m : StringMap) : DeviceTreeNode → List Nat
  | .mk name props children =>
    let dtb1 := padAlign (dtb ++ be32 FDT_BEGIN_NODE ++ name ++ [0])
    let dtb2 := writeProps dtb1 m props
    let dtb3 := writeNodes dtb2 m children
    dtb3 ++ be32 FDT_END_NODE

/-- Writes a list of sibling nodes in order. -/
def writeNodes (dtb : List Nat) (m : StringMap) : List DeviceTreeNode → List Nat
  | [] => dtb
  | c :: cs => writeNodes (writeNode dtb m c) m cs

end

/-- `write_root` from src/model/writer.rs lines 141-144: the root subtree
followed by `FDT_END`. -/
def writeRoot (dtb : List Nat) (m : StringMap) (root : DeviceTreeNode) : List Nat :=
  writeNode dtb m root ++ be32 FDT_END

/-- `DeviceTree::to_dtb` from src/model/writer.rs lines 34-52: header bytes,
memory reservations, structure block, strings block. -/
def DeviceTree.toDtb (t : DeviceTree) : List Nat :=
  let r := t.generateHeader
  let dtb := headerBytes r.2
  let dtb := writeMemoryReservations dtb t.memory_reservations
  let dtb := writeRoot dtb r.1 t.root
  r.1.writeStringBlock dtb

/-! ## Property decoders (src/lib.rs) -/

/-- `slice::chunks_exact(n)` for `n > 0`: the maximal sequence of
consecutive length-`n` chunks (the remainder is dropped).  The fuel only
bounds the loop. -/
def chunksExactGo (n : Nat) : List Nat → Nat → List (List Nat)
  | _, 0 => []
  | l, fuel + 1 =>
    if n ≤ l.length ∧ n ≠ 0 then l.take n :: chunksExactGo n (l.drop n) fuel
    else []

/-- `slice::chunks_exact(n)` with sufficient fuel. -/
def chunksExact (n : Nat) (l : List Nat) : List (List Nat) :=
  chunksExactGo n l (l.length + 1)

/-- `<[big_endian::U32]>::ref_from_bytes`: a byte slice whose length is a
multiple of 4 viewed as big-endian u32 cells. -/
def toCells : List Nat → List Nat
  | b0 :: b1 :: b2 :: b3 :: rest =>
      (((b0 * 256 + b1) * 256 + b2) * 256 + b3) :: toCells rest
  | _ => []

/-- The `fields_cells.map` + `split_at` loop of
`Property::as_prop_encoded_array`: cut a cell sequence into fields of the
given widths. -/
def splitFields : List Nat → List Nat → List (List Nat)
  | [], _ => []
  | c :: cs, cells => cells.take c :: splitFields cs (cells.drop c)

/-- The outcome of a Rust call that may panic. -/
inductive ArrayOutcome (α : Type) where
  | panic
  | error (e : StandardError)
  | ok (val : α)
deriving DecidableEq, Repr

/-- `Property::as_prop_encoded_array` from src/lib.rs lines 418-439.
`len.is_multiple_of(0)` in Rust is `len == 0`, which `len % 0 = len` models
exactly; `value.chunks_exact(0)` panics (a documented panic of
`slice::chunks_exact`), the `.panic` outcome.  Each chunk is viewed as cells
and cut into fields by `fields_cells`. -/
def Property.asPropEncodedArray (value : List Nat) (fieldsCells : List Nat) :
    ArrayOutcome (List (List (List Nat))) :=
  let chunkCells := fieldsCells.sum
  let chunkBytes := chunkCells * 4
  if value.length % chunkBytes ≠ 0 then
    .error (.PropEncodedArraySizeMismatch value.length chunkCells)
  else if chunkBytes = 0 then
    .panic
  else
    .ok ((chunksExact chunkBytes value).map
      (fun chunk => splitFields fieldsCells (toCells chunk)))

/-- `CStr::from_bytes_until_nul`: the bytes strictly before the first NUL,
`none` if there is no NUL. -/
def bytesUntilNul (l : List Nat) : Option (List Nat) :=
  match findNul l with
  | some i => some (l.take i)
  | none => none

/-- The loop of `FdtStringListIterator::next` from src/lib.rs lines 449-457,
run to completion: stop on empty input, on a missing NUL and on invalid
UTF-8; otherwise yield the segment and continue after its NUL. -/
def strListGo : List Nat → Nat → List (List Nat)
  | _, 0 => []
  | value, fuel + 1 =>
    if value = [] then []
    else
      match bytesUntilNul value with
      | none => []
      | some s =>
        if validUtf8 s then s :: strListGo (value.drop (s.length + 1)) fuel
        else []

/-- `Property::as_str_list` from src/lib.rs lines 406-410: all strings the
iterator yields, in order. -/
def Property.asStrList (value : List Nat) : List (List Nat) :=
  strListGo value (value.length + 1)

/-! ## Specification-side description of the strings block (claim C8) -/

mutual

/-- The property names met by a depth-first walk of a node, properties
before children — the walk order of `calculate_node_size`. -/
def dfsPropNames : DeviceTreeNode → List (List Nat)
  | .mk _ props children => props.map (fun p => p.name) ++ dfsPropNamesList children

/-- The depth-first property names of a sibling list. -/
def dfsPropNamesList : List DeviceTreeNode → List (List Nat)
  | [] => []
  | c :: cs => dfsPropNames c ++ dfsPropNamesList cs

end

/-- First-seen deduplication: keeps the first occurrence of every element,
in order of first appearance. -/
def firstSeenAux (acc : List (List Nat)) : List (List Nat) → List (List Nat)
  | [] => acc
  | x :: xs => firstSeenAux (if x ∈ acc then acc else acc ++ [x]) xs

/-- The unique names of a list in first-seen order. -/
def firstSeen (l : List (List Nat)) : List (List Nat) :=
  firstSeenAux [] l

/-! ## Writer output as pure byte sequences (proof layer)

The accumulator-style writer functions of src/model/writer.rs append to a
4-byte-aligned buffer; the following pure functions give the bytes each step
appends, related to the source functions by the `write*_eq` lemmas below. -/

/-- The bytes `write_prop` appends: tag, length, name offset, value, pad. -/
def propBytes (m : StringMap) (p : DeviceTreeProperty) : List Nat :=
  be32 FDT_PROP ++ be32 p.value.length ++ be32 (m.getOffset p.name) ++ p.value ++
    List.replicate (alignTag p.value.length - p.value.length) 0

/-- The bytes a node's property records occupy. -/
def propsBytes (m : StringMap) : List DeviceTreeProperty → List Nat
  | [] => []
  | p :: ps => propBytes m p ++ propsBytes m ps

/-- The bytes opening a node: `BEGIN_NODE`, name, NUL, pad. -/
def nodeHeadBytes (name : List Nat) : List Nat :=
  be32 FDT_BEGIN_NODE ++ name ++ [0] ++
    List.replicate (alignTag (name.length + 1) - (name.length + 1)) 0

mutual

/-- The bytes `write_node` appends for a whole subtree. -/
def nodeBytes (m : StringMap) : DeviceTreeNode → List Nat
  | .mk name props children =>
    nodeHeadBytes name ++ propsBytes m props ++ nodesBytes m children ++
      be32 FDT_END_NODE

/-- The bytes of a sibling list. -/
def nodesBytes (m : StringMap) : List DeviceTreeNode → List Nat
  | [] => []
  | c :: cs => nodeBytes m c ++ nodesBytes m cs

end

/-- The strings-block bytes of an entry list, in container order. -/
def esBlock (es : List (List Nat × Nat)) : List Nat :=
  es.flatMap (fun e => e.1 ++ [0])

/-- The offsets of an entry list are contiguous starting at `cur`. -/
def esOk : List (List Nat × Nat) → Nat → Prop
  | [], _ => True
  | e :: es, cur => e.2 = cur ∧ esOk es (cur + e.1.length + 1)

/-- The string-map invariant maintained by `StringMap::insert`: entries laid
out contiguously from offset 0, `next_offset` the total length. -/
def smOk (m : StringMap) : Prop :=
  esOk m.entries 0 ∧ m.next_offset = (esBlock m.entries).length

/-- The keys of a string map in container (= insertion) order. -/
def smKeys (m : StringMap) : List (List Nat) :=
  m.entries.map (fun e => e.1)

/-- A name usable in a serialized tree: no NUL byte, valid UTF-8.  (Rust
`String`s are always valid UTF-8; NUL-freedom is a genuine extra
condition.) -/
def nameOk (name : List Nat) : Bool :=
  name.all (fun b => decide (b ≠ 0)) && validUtf8 name

mutual

/-- Round-trip well-formedness of a node: its name and property names are
NUL-free valid UTF-8 and property values fit a u32 length field. -/
def nodeOk : DeviceTreeNode → Bool
  | .mk name props children =>
    nameOk name &&
    props.all (fun p => nameOk p.name && decide (p.value.length < 2 ^ 32)) &&
    nodesOk children

/-- Round-trip well-formedness of a child list. -/
def nodesOk : List DeviceTreeNode → Bool
  | [] => true
  | c :: cs => nodeOk c && nodesOk cs

end

/-- Round-trip well-formedness of a reservation list: no entry equals the
(0,0) terminator and both halves fit u64. -/
def memsOk (rs : List MemoryReservation) : Bool :=
  rs.all (fun r => decide (¬ (r.address = 0 ∧ r.size = 0)) &&
    decide (r.address < 2 ^ 64) && decide (r.size < 2 ^ 64))

mutual

/-- The number of loop iterations the subtree-skip walk spends on a node. -/
def tokNode : DeviceTreeNode → Nat
  | .mk _ props children => 1 + props.length + tokNodes children + 1

/-- Iterations spent on a sibling list. -/
def tokNodes : List DeviceTreeNode → Nat
  | [] => 0
  | c :: cs => tokNode c + tokNodes cs

end

mutual

/-- Nesting height of a node (fuel needed by `parseNode`). -/
def heightN : DeviceTreeNode → Nat
  | .mk _ _ children => heightNs children + 1

/-- Nesting height of a sibling list. -/
def heightNs : List DeviceTreeNode → Nat
  | [] => 0
  | c :: cs => max (heightN c) (heightNs cs)

end

/-- The offsets at which the children of a node start inside a
writer-produced buffer, as yielded by the child iterator. -/
def childOffs (m : StringMap) : Nat → List DeviceTreeNode → List Nat
  | _, [] => []
  | off, c :: cs => off :: childOffs m (off + (nodeBytes m c).length) cs

/-- The bytes `write_memory_reservations` appends: each entry big-endian,
then the (0,0) terminator. -/
def memrsvBytes (rs : List MemoryReservation) : List Nat :=
  rs.flatMap (fun r => be64 r.address ++ be64 r.size) ++ (be64 0 ++ be64 0)

/-- A tree whose only reservation is the (0,0) terminator pattern. -/
def treeRsv0 : DeviceTree := ⟨.mk [0x2F] [] [], [⟨0, 0⟩]⟩

/-- A sample well-formed tree: root "/" with property "a", one child "c@1"
with properties "a" (shared name) and "b", and one nonzero reservation. -/
def treeSample : DeviceTree :=
  ⟨.mk [0x2F] [⟨[0x61], [1, 2, 3]⟩]
    [.mk [0x63, 0x40, 0x31] [⟨[0x61], [4]⟩, ⟨[0x62], []⟩] []],
   [⟨0x1000, 0x2000⟩]⟩

/-! ## Concrete test vectors -/

/-- The 60-byte minimal blob `FDT_HEADER_OK` from the tests of
src/fdt/mod.rs: valid header, empty memory-reservation block, a structure
block holding one `FDT_END`, empty strings block. -/
def blobOK : List Nat :=
  [0xd0, 0x0d, 0xfe, 0xed,
   0x00, 0x00, 0x00, 0x3c,
   0x00, 0x00, 0x00, 0x38,
   0x00, 0x00, 0x00, 0x3c,
   0x00, 0x00, 0x00, 0x28,
   0x00, 0x00, 0x00, 0x11,
   0x00, 0x00, 0x00, 0x10,
   0x00, 0x00, 0x00, 0x00,
   0x00, 0x00, 0x00, 0x00,
   0x00, 0x00, 0x00, 0x04,
   0x00, 0x00, 0x00, 0x00,
   0x00, 0x00, 0x00, 0x00,
   0x00, 0x00, 0x00, 0x00,
   0x00, 0x00, 0x00, 0x00,
   0x00, 0x00, 0x00, 0x09]

/-- A 64-byte blob with valid magic, version window and block ordering whose
`off_mem_rsvmap` (41) is not 8-byte aligned and whose `off_dt_struct` (57)
is not 4-byte aligned. -/
def blobMis : List Nat :=
  [0xd0, 0x0d, 0xfe, 0xed,
   0x00, 0x00, 0x00, 0x40,
   0x00, 0x00, 0x00, 0x39,
   0x00, 0x00, 0x00, 0x3d,
   0x00, 0x00, 0x00, 0x29,
   0x00, 0x00, 0x00, 0x11,
   0x00, 0x00, 0x00, 0x10,
   0x00, 0x00, 0x00, 0x00,
   0x00, 0x00, 0x00, 0x03,
   0x00, 0x00, 0x00, 0x04,
   0x00, 0x00, 0x00, 0x00,
   0x00, 0x00, 0x00, 0x00,
   0x00, 0x00, 0x00, 0x00,
   0x00, 0x00, 0x00, 0x00,
   0x00, 0x00, 0x00, 0x00,
   0x00, 0x00, 0x00, 0x00]

/-- `blobOK` with the `version` field (byte offset 20..23) set to 16. -/
def blobV16 : List Nat :=
  (blobOK.take 23) ++ [0x10] ++ (blobOK.drop 24)

/-!
# Claims

Each claim of the specification audit gets exactly one theorem below
(plus a counterexample where the claim as stated fails, and a witness
where the theorem carries hypotheses).
-/

/-- Claim C2, divergence: on the cell sequence `[1, 0]` converted into a
64-bit target, `Cells::to_int` and `Reg::address` return the claimed
left-to-right fold `(value << 32) | cell` (that is `2^32`), but `Reg::size`
returns 16 because its accumulation step shifts by `size_of::<u32>()` = 4
instead of 32 bits. -/
theorem c2_reg_size_shift_bug :
    Cells.toInt 8 [1, 0] =
      .ok ([1, 0].foldl (fun value cell => value <<< 32 ||| cell) 0) ∧
    Reg.addr 8 ⟨[1, 0], []⟩ =
      .ok ([1, 0].foldl (fun value cell => value <<< 32 ||| cell) 0) ∧
    [1, 0].foldl (fun value cell => value <<< 32 ||| cell) 0 = 2 ^ 32 ∧
    Reg.sz 8 ⟨[], [1, 0]⟩ = .ok 16 ∧
    (16 : Nat) ≠ 2 ^ 32 := by
  refine ⟨rfl, rfl, by decide, rfl, by decide⟩

/-- Claim C3, divergence: `Status::from_str` maps `"okay"`, `"reserved"`,
`"fail"`, `"fail-sss"` as claimed, but the `Disabled` literal is misspelt in
the source: `"disabled"` (the specification's spelling) is rejected with
`InvalidStatus` while `"disadbled"` is accepted. -/
theorem c3_status_disabled_spelling :
    Status.fromStr "okay" = .ok .Okay ∧
    Status.fromStr "reserved" = .ok .Reserved ∧
    Status.fromStr "fail" = .ok .Fail ∧
    Status.fromStr "fail-sss" = .ok .FailSss ∧
    Status.fromStr "disabled" = .error .InvalidStatus ∧
    Status.fromStr "disadbled" = .ok .Disabled := by
  refine ⟨rfl, rfl, rfl, rfl, rfl, rfl⟩

/-- Claim C9, counterexample: the root node of `DeviceTree::new()` does not
have the empty name — `DeviceTree::new` passes `"/"` to
`DeviceTreeNode::new`. -/
theorem c9_new_root_name_not_empty :
    DeviceTree.new.root.name ≠ ([] : List Nat) := by
  decide

/-- Claim C9 (amended): `DeviceTree::new()` returns a tree whose root node
has the one-byte name `"/"` (0x2F), no properties, no children, and an empty
memory-reservation list. -/
theorem c9_new_root_amended :
    DeviceTree.new.root.name = [0x2F] ∧
    DeviceTree.new.root.properties = [] ∧
    DeviceTree.new.root.children = [] ∧
    DeviceTree.new.memory_reservations = [] := by
  refine ⟨rfl, rfl, rfl, rfl⟩

/-- Claim C6: every buffer accepted by `Fdt::new` satisfies the header
invariants — `totalsize` equals the buffer length, the magic matches,
`last_comp_version ≤ 17 ≤ version`, `off_mem_rsvmap ≤ off_dt_struct`,
`off_dt_struct + size_dt_struct ≤ off_dt_strings`, and
`off_dt_strings + size_dt_strings ≤ totalsize`. -/
theorem c6_header_invariants (data : List Nat) (f : Fdt)
    (h : Fdt.new data = .ok f) :
    f.data = data ∧ f.totalsize = data.length ∧ f.magic = FDT_MAGIC ∧
    f.last_comp_version ≤ 17 ∧ 17 ≤ f.version ∧
    f.off_mem_rsvmap ≤ f.off_dt_struct ∧
    f.off_dt_struct + f.size_dt_struct ≤ f.off_dt_strings ∧
    f.off_dt_strings + f.size_dt_strings ≤ f.totalsize := by
  unfold Fdt.new at h
  split at h
  · exact absurd h (by simp)
  split at h
  · exact absurd h (by simp)
  rename_i hmagic
  split at h
  · exact absurd h (by simp)
  rename_i hver
  split at h
  · exact absurd h (by simp)
  rename_i htotal
  split at h
  · exact absurd h (by simp)
  rename_i x heq
  cases h
  unfold Fdt.validateHeader at heq
  split at heq
  · exact absurd heq (by simp)
  rename_i h1
  split at heq
  · exact absurd heq (by simp)
  rename_i h2
  split at heq
  · exact absurd heq (by simp)
  rename_i h3
  split at heq
  · exact absurd heq (by simp)
  rename_i h4
  split at heq
  · exact absurd heq (by simp)
  rename_i h5
  split at heq
  · exact absurd heq (by simp)
  rename_i h6
  simp only [ne_eq, not_not, gt_iff_lt, not_lt, FDT_VERSION] at hmagic hver htotal h1 h2 h3 h4 h5 h6
  exact ⟨rfl, by omega, hmagic, by omega, by omega, by omega, by omega, by omega⟩

/-- Claim C6, witness: the minimal 60-byte blob is accepted and the
invariants hold on it. -/
theorem c6_header_invariants_witness :
    Fdt.new blobOK = .ok ⟨blobOK⟩ ∧
    (Fdt.mk blobOK).totalsize = blobOK.length ∧
    (Fdt.mk blobOK).off_mem_rsvmap ≤ (Fdt.mk blobOK).off_dt_struct ∧
    (Fdt.mk blobOK).off_dt_struct + (Fdt.mk blobOK).size_dt_struct ≤
      (Fdt.mk blobOK).off_dt_strings := by
  have h := c6_header_invariants blobOK ⟨blobOK⟩ rfl
  exact ⟨rfl, h.2.1, h.2.2.2.2.2.1, h.2.2.2.2.2.2.1⟩

/-- Claim C7: `Fdt::new` rejects buffers shorter than the 40-byte header
with `InvalidLength` at offset 0; buffers of at least 40 bytes with a wrong
magic with `InvalidMagic` at offset 0 (the magic field's offset); and
buffers with a valid magic whose version window `[last_comp_version,
version]` misses 17 with `UnsupportedVersion(version)` at offset 20 (the
version field's offset). -/
theorem c7_header_rejections :
    (∀ data : List Nat, data.length < 40 →
      Fdt.new data = .error (.new .InvalidLength 0)) ∧
    (∀ data : List Nat, 40 ≤ data.length → (Fdt.mk data).magic ≠ FDT_MAGIC →
      Fdt.new data = .error (.new .InvalidMagic 0)) ∧
    (∀ data : List Nat, 40 ≤ data.length → (Fdt.mk data).magic = FDT_MAGIC →
      ¬ ((Fdt.mk data).last_comp_version ≤ 17 ∧ 17 ≤ (Fdt.mk data).version) →
      Fdt.new data =
        .error (.new (.UnsupportedVersion ((Fdt.mk data).version)) 20)) := by
  refine ⟨?_, ?_, ?_⟩
  · intro data h
    unfold Fdt.new
    rw [if_pos h]
  · intro data hlen hm
    unfold Fdt.new
    rw [if_neg (by omega : ¬ data.length < 40), if_pos hm]
  · intro data hlen hm hv
    unfold Fdt.new
    rw [if_neg (by omega : ¬ data.length < 40), if_neg (by simp [hm]),
      if_pos (by simpa [FDT_VERSION] using hv)]

/-- Claim C7, witness: the first 10 bytes of the minimal blob are rejected
with `InvalidLength`, the minimal blob with byte 0 zeroed with
`InvalidMagic` at offset 0, and the minimal blob with `version = 16`
(`last_comp_version = 16`) with `UnsupportedVersion(16)` at offset 20. -/
theorem c7_header_rejections_witness :
    Fdt.new (blobOK.take 10) = .error (.new .InvalidLength 0) ∧
    Fdt.new (0 :: blobOK.drop 1) = .error (.new .InvalidMagic 0) ∧
    Fdt.new blobV16 = .error (.new (.UnsupportedVersion 16) 20) := by
  refine ⟨c7_header_rejections.1 (blobOK.take 10) (by decide), ?_, ?_⟩
  · exact c7_header_rejections.2.1 (0 :: blobOK.drop 1) (by decide) (by decide)
  · exact c7_header_rejections.2.2 blobV16 (by decide) (by decide) (by decide)

/-- Claim C4, counterexample: `blobMis` is accepted by `Fdt::new` although
its `off_mem_rsvmap` (41) is not 8-byte aligned and its `off_dt_struct`
(57) is not 4-byte aligned — the alignments are not enforced at parse
time. -/
theorem c4_alignment_not_enforced :
    Fdt.new blobMis = .ok ⟨blobMis⟩ ∧
    (Fdt.mk blobMis).off_mem_rsvmap % 8 = 1 ∧
    (Fdt.mk blobMis).off_dt_struct % 4 = 1 := by
  exact ⟨rfl, by decide, by decide⟩

/-- Claim C4 (amended): parse-time validation does not enforce the two
alignment invariants — there is an accepted buffer violating both — and the
`off_mem_rsvmap` alignment is instead checked when the memory reservations
are iterated, failing with `MemReserveInvalid`. -/
theorem c4_alignment_amended :
    (∃ data : List Nat, Fdt.new data = .ok ⟨data⟩ ∧
      (Fdt.mk data).off_mem_rsvmap % 8 ≠ 0 ∧
      (Fdt.mk data).off_dt_struct % 4 ≠ 0) ∧
    (∀ f : Fdt, f.off_mem_rsvmap % 8 ≠ 0 →
      f.memoryReservations = .error (.new .MemReserveInvalid f.off_mem_rsvmap)) := by
  constructor
  · exact ⟨blobMis, rfl, by decide, by decide⟩
  · intro f h
    unfold Fdt.memoryReservations
    rw [if_pos h]

/-- Claim C4, witness: iterating the memory reservations of the accepted
misaligned buffer fails with `MemReserveInvalid` at its `off_mem_rsvmap`. -/
theorem c4_alignment_amended_witness :
    Fdt.memoryReservations ⟨blobMis⟩ = .error (.new .MemReserveInvalid 41) := by
  exact c4_alignment_amended.2 ⟨blobMis⟩ (by decide)

/-! ## Support lemmas for the string-list iterator -/

theorem findNul_of_not_mem (l : List Nat) (h : 0 ∉ l) : findNul l = none := by
  induction l with
  | nil => rfl
  | cons b rest ih =>
    have hb : b ≠ 0 := fun hb => h (hb ▸ List.mem_cons_self b rest)
    have hr : 0 ∉ rest := fun hr => h (List.mem_cons_of_mem b hr)
    unfold findNul
    match b, hb with
    | Nat.succ b', _ => simp [ih hr]

theorem findNul_append (s rest : List Nat) (h : ∀ b ∈ s, b ≠ 0) :
    findNul (s ++ 0 :: rest) = some s.length := by
  induction s with
  | nil => rfl
  | cons b bs ih =>
    have hb : b ≠ 0 := h b (List.mem_cons_self b bs)
    have hr : ∀ x ∈ bs, x ≠ 0 := fun x hx => h x (List.mem_cons_of_mem b hx)
    unfold findNul
    match b, hb with
    | Nat.succ b', _ => simp [ih hr]

theorem strListGo_congr : ∀ (n : Nat) (v : List Nat) (f g : Nat),
    v.length ≤ n → v.length < f → v.length < g → strListGo v f = strListGo v g := by
  intro n
  induction n with
  | zero =>
    intro v f g hn hf hg
    have hv : v = [] := List.eq_nil_of_length_eq_zero (Nat.le_zero.mp hn)
    subst hv
    match f, hf, g, hg with
    | f' + 1, _, g' + 1, _ => rfl
  | succ n ih =>
    intro v f g hn hf hg
    match f, hf, g, hg with
    | f' + 1, _, g' + 1, _ =>
      show strListGo v (f' + 1) = strListGo v (g' + 1)
      unfold strListGo
      by_cases hv : v = []
      · simp [hv]
      · simp only [hv, if_false]
        match hbu : bytesUntilNul v with
        | none => rfl
        | some s =>
          simp only []
          by_cases hu : validUtf8 s
          · simp only [hu, if_true]
            have hlen : (v.drop (s.length + 1)).length < v.length := by
              have hvpos : 0 < v.length := List.length_pos.mpr hv
              simp [List.length_drop]
              omega
            have h1 : (v.drop (s.length + 1)).length ≤ n := by omega
            rw [ih (v.drop (s.length + 1)) f' g' h1 (by omega) (by omega)]
          · simp [hu]

/-- Claim C10: `as_str_list` is total on malformed data — if the remaining
bytes contain no NUL the sequence simply ends there (silently discarding
them, so a value not ending in NUL loses its final segment), and if the next
NUL-terminated segment is not valid UTF-8 the sequence also ends there;
otherwise the segment is yielded and iteration continues after its NUL. -/
theorem c10_str_list_truncates (value : List Nat) :
    (0 ∉ value → Property.asStrList value = []) ∧
    (∀ s rest, value = s ++ 0 :: rest → (∀ b ∈ s, b ≠ 0) →
      (validUtf8 s = true →
        Property.asStrList value = s :: Property.asStrList rest) ∧
      (validUtf8 s = false → Property.asStrList value = [])) := by
  constructor
  · intro h
    unfold Property.asStrList strListGo
    by_cases hv : value = []
    · simp [hv]
    · simp only [hv, if_false]
      unfold bytesUntilNul
      rw [findNul_of_not_mem value h]
  · intro s rest hv hs
    subst hv
    have hne : s ++ 0 :: rest ≠ [] := by simp
    have hfind : findNul (s ++ 0 :: rest) = some s.length := findNul_append s rest hs
    have htake : (s ++ 0 :: rest).take s.length = s := List.take_left s (0 :: rest)
    have hdrop : (s ++ 0 :: rest).drop (s.length + 1) = rest := by
      have : s ++ 0 :: rest = (s ++ [0]) ++ rest := by simp
      rw [this]
      have hlen : (s ++ [0]).length = s.length + 1 := by simp
      rw [← hlen, List.drop_left]
    constructor
    · intro hu
      unfold Property.asStrList
      conv_lhs => unfold strListGo
      simp only [hne, if_false]
      unfold bytesUntilNul
      rw [hfind]
      simp only [htake, hu, if_true]
      rw [hdrop]
      congr 1
      exact strListGo_congr rest.length rest (s ++ 0 :: rest).length (rest.length + 1)
        le_rfl (by simp; omega) (by omega)
    · intro hu
      unfold Property.asStrList
      conv_lhs => unfold strListGo
      simp only [hne, if_false]
      unfold bytesUntilNul
      rw [hfind]
      simp [htake, hu]

/-- Claim C10, witness: the value `"h" NUL 0xFF` yields exactly `["h"]` —
the trailing byte 0xFF (not NUL-terminated, not valid UTF-8) is silently
discarded. -/
theorem c10_str_list_truncates_witness :
    Property.asStrList [104, 0, 255] = [[104]] := by
  have h := (c10_str_list_truncates [104, 0, 255]).2 [104] [255] rfl (by decide)
  rw [h.1 (by decide)]
  rw [(c10_str_list_truncates [255]).1 (by decide)]

/-! ## Support lemmas for the prop-encoded-array decoder -/

theorem chunksExactGo_spec : ∀ (k n : Nat) (l : List Nat) (fuel : Nat), 0 < n →
    l.length = k * n → k ≤ fuel →
    chunksExactGo n l fuel = (List.range k).map (fun j => (l.drop (n * j)).take n) := by
  intro k
  induction k with
  | zero =>
    intro n l fuel hn hl hf
    have : l = [] := List.eq_nil_of_length_eq_zero (by omega)
    subst this
    match fuel with
    | 0 => rfl
    | f + 1 =>
      unfold chunksExactGo
      simp
  | succ k ih =>
    intro n l fuel hn hl hf
    match fuel, hf with
    | f + 1, _ =>
      unfold chunksExactGo
      have hcond : n ≤ l.length ∧ n ≠ 0 := by
        constructor
        · rw [hl, Nat.succ_mul]
          omega
        · omega
      rw [if_pos hcond]
      have hdl : (l.drop n).length = k * n := by
        rw [List.length_drop, hl, Nat.succ_mul]
        omega
      rw [ih n (l.drop n) f hn hdl (by omega)]
      rw [List.range_succ_eq_map]
      simp only [List.map_cons, List.map_map, Nat.mul_zero, List.drop_zero]
      congr 1
      refine List.map_congr_left ?_
      intro j hj
      simp only [Function.comp_apply, List.drop_drop, Nat.succ_eq_add_one]
      have harith : n + n * j = n * (j + 1) := by ring
      rw [harith]

theorem toCells_drop4 (l : List Nat) : toCells (l.drop 4) = (toCells l).drop 1 := by
  match l with
  | [] => rfl
  | [a] => rfl
  | [a, b] => rfl
  | [a, b, c] => rfl
  | a :: b :: c :: d :: rest =>
    show toCells rest = (toCells (a :: b :: c :: d :: rest)).drop 1
    rw [toCells]
    rfl

theorem toCells_drop : ∀ (p : Nat) (l : List Nat),
    toCells (l.drop (4 * p)) = (toCells l).drop p := by
  intro p
  induction p with
  | zero => simp
  | succ p ih =>
    intro l
    have h1 : 4 * (p + 1) = 4 + 4 * p := by ring
    rw [h1, ← List.drop_drop, ih (l.drop 4), toCells_drop4, List.drop_drop,
      Nat.add_comm 1 p]

theorem toCells_take : ∀ (c : Nat) (l : List Nat),
    toCells (l.take (4 * c)) = (toCells l).take c := by
  intro c
  induction c with
  | zero => simp [toCells]
  | succ c ih =>
    intro l
    match l with
    | [] => simp [toCells]
    | [a] => simp [toCells, List.take_nil]
    | [a, b] => simp [toCells]
    | [a, b, c'] => simp [toCells]
    | a :: b :: c' :: d :: rest =>
      have h1 : 4 * (c + 1) = 4 * c + 4 := by ring
      rw [h1]
      show toCells (a :: b :: c' :: d :: rest.take (4 * c)) = _
      rw [toCells, toCells, ih rest]
      rfl

theorem splitFields_length (fc cells : List Nat) :
    (splitFields fc cells).length = fc.length := by
  induction fc generalizing cells with
  | nil => rfl
  | cons c cs ih => simp [splitFields, ih]

theorem splitFields_getD : ∀ (fc : List Nat) (cells : List Nat) (i : Nat),
    i < fc.length →
    (splitFields fc cells).getD i [] =
      (cells.drop ((fc.take i).sum)).take (fc.getD i 0) := by
  intro fc
  induction fc with
  | nil => intro cells i hi; simp at hi
  | cons c cs ih =>
    intro cells i hi
    match i with
    | 0 => simp [splitFields]
    | i + 1 =>
      have hi' : i < cs.length := by simpa using hi
      show (splitFields cs (cells.drop c)).getD i [] = _
      rw [ih (cells.drop c) i hi']
      simp [List.drop_drop]

theorem take_sum_getD_le (fc : List Nat) (i : Nat) (hi : i < fc.length) :
    (fc.take i).sum + fc.getD i 0 ≤ fc.sum := by
  induction fc generalizing i with
  | nil => simp at hi
  | cons c cs ih =>
    match i with
    | 0 => simp
    | i + 1 =>
      have hi' : i < cs.length := by simpa using hi
      have h2 := ih i hi'
      show ((c :: cs).take (i + 1)).sum + (c :: cs).getD (i + 1) 0 ≤ (c :: cs).sum
      rw [List.take_succ_cons, List.sum_cons, List.sum_cons]
      have h3 : (c :: cs).getD (i + 1) 0 = cs.getD i 0 := rfl
      rw [h3]
      omega

end Dtoolkit

namespace Dtoolkit

theorem getD_map_range {α : Type} (k j : Nat) (f : Nat → α) (d : α) (hj : j < k) :
    (((List.range k).map f).getD j d) = f j := by
  rw [List.getD_eq_getElem?_getD, List.getElem?_map, List.getElem?_range hj]
  rfl

/-- Claim C5, counterexample: with an all-zero layout and an empty value,
`as_prop_encoded_array` is not total — `len.is_multiple_of(0)` holds for
`len = 0`, and `value.chunks_exact(0)` then panics on its zero-chunk-size
precondition. -/
theorem c5_zero_layout_panics :
    Property.asPropEncodedArray [] [0] = .panic := rfl

/-- Claim C5 (amended): for every property value and layout, except a layout
whose cell counts sum to zero combined with an empty value (where the code
panics), `as_prop_encoded_array` is total: if `len(v)` is not a multiple of
`4 * Σ cᵢ` it returns `PropEncodedArraySizeMismatch{size = len(v),
chunk = Σ cᵢ}` (for a zero-sum layout and a nonempty value this is the
returned error, with `chunk = 0`); otherwise (with a positive cell sum) it
returns `len(v) / (4 Σ cᵢ)` tuples of `n` fields in which the `i`-th field
is the view of the `cᵢ` consecutive big-endian u32 words at cell position
`j·Σcᵢ + c₀+…+cᵢ₋₁`, in order. -/
theorem c5_array_total_amended (value fc : List Nat) (h : fc.sum ≠ 0 ∨ value ≠ []) :
    Property.asPropEncodedArray value fc ≠ .panic ∧
    (value.length % (fc.sum * 4) ≠ 0 →
      Property.asPropEncodedArray value fc =
        .error (.PropEncodedArraySizeMismatch value.length fc.sum)) ∧
    (fc.sum ≠ 0 → value.length % (fc.sum * 4) = 0 →
      ∃ chunks, Property.asPropEncodedArray value fc = .ok chunks ∧
        chunks.length = value.length / (fc.sum * 4) ∧
        ∀ j, j < chunks.length →
          (chunks.getD j []).length = fc.length ∧
          ∀ i, i < fc.length →
            (chunks.getD j []).getD i [] =
              toCells ((value.drop (4 * (j * fc.sum + (fc.take i).sum))).take
                (4 * fc.getD i 0))) := by
  have e : Property.asPropEncodedArray value fc =
      (if value.length % (fc.sum * 4) ≠ 0 then
        .error (.PropEncodedArraySizeMismatch value.length fc.sum)
      else if fc.sum * 4 = 0 then .panic
      else .ok ((chunksExact (fc.sum * 4) value).map
        (fun chunk => splitFields fc (toCells chunk)))) := rfl
  by_cases hmod : value.length % (fc.sum * 4) ≠ 0
  · rw [e, if_pos hmod]
    exact ⟨by simp, fun _ => rfl, fun _ hm => absurd hm hmod⟩
  · push_neg at hmod
    have hs : fc.sum ≠ 0 := by
      rcases h with hs | hv
      · exact hs
      · intro h0
        rw [h0] at hmod
        simp at hmod
        exact hv hmod
    have hcb : fc.sum * 4 ≠ 0 := by omega
    have hcbpos : 0 < fc.sum * 4 := by omega
    rw [e, if_neg (by omega), if_neg hcb]
    refine ⟨by simp, fun hm => absurd hmod hm, fun _ _ => ?_⟩
    set cb := fc.sum * 4 with hcbdef
    set k := value.length / cb with hk
    have hlen : value.length = k * cb := by
      rw [hk]
      exact (Nat.div_mul_cancel (Nat.dvd_of_mod_eq_zero hmod)).symm
    have hchunks : chunksExact cb value =
        (List.range k).map (fun j => (value.drop (cb * j)).take cb) := by
      unfold chunksExact
      have hkle : k ≤ value.length := Nat.div_le_self _ _
      exact chunksExactGo_spec k cb value (value.length + 1) hcbpos hlen (by omega)
    refine ⟨_, rfl, ?_, ?_⟩
    · rw [hchunks]
      simp
    · intro j hj
      rw [hchunks] at hj ⊢
      simp only [List.length_map, List.length_range] at hj
      rw [List.map_map, getD_map_range k j _ [] hj]
      simp only [Function.comp_apply]
      constructor
      · exact splitFields_length fc _
      · intro i hi
        rw [splitFields_getD fc _ i hi]
        have h4s : cb = 4 * fc.sum := by rw [hcbdef]; ring
        have htc : toCells ((value.drop (cb * j)).take cb) =
            (toCells (value.drop (cb * j))).take fc.sum := by
          rw [h4s, toCells_take]
        rw [htc]
        rw [List.drop_take]
        rw [List.take_take]
        have hle : (fc.take i).sum + fc.getD i 0 ≤ fc.sum := take_sum_getD_le fc i hi
        have hmin : min (fc.getD i 0) (fc.sum - (fc.take i).sum) = fc.getD i 0 := by omega
        rw [hmin, ← toCells_drop, List.drop_drop, ← toCells_take]
        congr 2
        ring_nf


/-- Claim C5, witness: the 8-byte value `<5 6>` with layout `[1, 1]` does
not panic and decodes to a single two-field tuple. -/
theorem c5_array_total_amended_witness :
    Property.asPropEncodedArray [0, 0, 0, 5, 0, 0, 0, 6] [1, 1] ≠ .panic ∧
    (∃ chunks,
      Property.asPropEncodedArray [0, 0, 0, 5, 0, 0, 0, 6] [1, 1] = .ok chunks ∧
      chunks.length = 1) := by
  have h := c5_array_total_amended [0, 0, 0, 5, 0, 0, 0, 6] [1, 1] (Or.inl (by decide))
  refine ⟨h.1, ?_⟩
  obtain ⟨chunks, hok, hlen, _⟩ := h.2.2 (by decide) (by decide)
  refine ⟨chunks, hok, ?_⟩
  rw [hlen]
  rfl

/-! ## Byte-level support lemmas -/

theorem be32_length (v : Nat) : (be32 v).length = 4 := rfl

theorem be64_length (v : Nat) : (be64 v).length = 8 := rfl

theorem readU32_congr (data : List Nat) (off : Nat) (rest : List Nat)
    (h : data.drop off = rest) : readU32 data off = readU32 rest 0 := by
  unfold readU32
  rw [h, List.drop_zero]

theorem readU32_be32 (v : Nat) (l : List Nat) :
    readU32 (be32 v ++ l) 0 = some (v % 2 ^ 32) := by
  unfold readU32 be32
  simp only [List.cons_append, List.drop_zero]
  congr 1
  omega

theorem readU32_be32_lt (v : Nat) (l : List Nat) (h : v < 2 ^ 32) :
    readU32 (be32 v ++ l) 0 = some v := by
  rw [readU32_be32, Nat.mod_eq_of_lt h]

theorem readU64_congr (data : List Nat) (off : Nat) (rest : List Nat)
    (h : data.drop off = rest) : readU64 data off = readU64 rest 0 := by
  unfold readU64
  rw [h, List.drop_zero]

theorem readU64_be64_lt (v : Nat) (l : List Nat) (h : v < 2 ^ 64) :
    readU64 (be64 v ++ l) 0 = some v := by
  unfold readU64 be64
  simp only [List.cons_append, List.drop_zero]
  congr 1
  omega

theorem drop_append_len (pre l : List Nat) : (pre ++ l).drop pre.length = l :=
  List.drop_left pre l

theorem drop_append_add (pre l : List Nat) (k : Nat) :
    (pre ++ l).drop (pre.length + k) = l.drop k := by
  rw [← List.drop_drop, drop_append_len]

theorem alignTag_ge (n : Nat) : n ≤ alignTag n := by unfold alignTag; omega

theorem alignTag_lt (n : Nat) : alignTag n < n + 4 := by unfold alignTag; omega

theorem alignTag_mod (n : Nat) : alignTag n % 4 = 0 := by unfold alignTag; omega

theorem alignTag_add (a b : Nat) (h : a % 4 = 0) :
    alignTag (a + b) = a + alignTag b := by
  unfold alignTag; omega

theorem alignTag_of_mod (n : Nat) (h : n % 4 = 0) : alignTag n = n := by
  unfold alignTag; omega

theorem padAlign_length (l : List Nat) : (padAlign l).length = alignTag l.length := by
  unfold padAlign
  simp [List.length_append, List.length_replicate]
  have := alignTag_ge l.length
  omega


theorem propBytes_length (m : StringMap) (p : DeviceTreeProperty) :
    (propBytes m p).length = 12 + alignTag p.value.length := by
  unfold propBytes
  simp [List.length_append, be32_length, List.length_replicate]
  have := alignTag_ge p.value.length
  omega

theorem propBytes_mod (m : StringMap) (p : DeviceTreeProperty) :
    (propBytes m p).length % 4 = 0 := by
  rw [propBytes_length]
  have := alignTag_mod p.value.length
  omega

theorem propsBytes_mod (m : StringMap) (ps : List DeviceTreeProperty) :
    (propsBytes m ps).length % 4 = 0 := by
  induction ps with
  | nil => rfl
  | cons p ps ih =>
    unfold propsBytes
    rw [List.length_append]
    have := propBytes_mod m p
    omega

theorem nodeHeadBytes_length (name : List Nat) :
    (nodeHeadBytes name).length = 4 + alignTag (name.length + 1) := by
  unfold nodeHeadBytes
  simp [List.length_append, be32_length, List.length_replicate]
  have := alignTag_ge (name.length + 1)
  omega

theorem nodeHeadBytes_mod (name : List Nat) :
    (nodeHeadBytes name).length % 4 = 0 := by
  rw [nodeHeadBytes_length]
  have := alignTag_mod (name.length + 1)
  omega

mutual

theorem nodeBytes_mod (m : StringMap) :
    ∀ n : DeviceTreeNode, (nodeBytes m n).length % 4 = 0
  | .mk name props children => by
    unfold nodeBytes
    simp only [List.length_append]
    have h1 := nodeHeadBytes_mod name
    have h2 := propsBytes_mod m props
    have h3 := nodesBytes_mod m children
    have h4 : (be32 FDT_END_NODE).length = 4 := rfl
    omega

theorem nodesBytes_mod (m : StringMap) :
    ∀ cs : List DeviceTreeNode, (nodesBytes m cs).length % 4 = 0
  | [] => by rfl
  | c :: cs => by
    unfold nodesBytes
    rw [List.length_append]
    have h1 := nodeBytes_mod m c
    have h2 := nodesBytes_mod m cs
    omega

end

theorem writeProp_eq (dtb : List Nat) (m : StringMap) (p : DeviceTreeProperty)
    (h : dtb.length % 4 = 0) : writeProp dtb m p = dtb ++ propBytes m p := by
  unfold writeProp padAlign propBytes
  have hlen : (dtb ++ be32 FDT_PROP ++ be32 p.value.length ++
      be32 (m.getOffset p.name) ++ p.value).length =
      dtb.length + 12 + p.value.length := by
    simp [List.length_append, be32_length]
    omega
  rw [hlen]
  have hpad : alignTag (dtb.length + 12 + p.value.length) -
      (dtb.length + 12 + p.value.length) =
      alignTag p.value.length - p.value.length := by
    have h1 : dtb.length + 12 + p.value.length = (dtb.length + 12) + p.value.length := by
      omega
    rw [h1, alignTag_add (dtb.length + 12) p.value.length (by omega)]
    omega
  rw [hpad]
  simp [List.append_assoc]

theorem writeProps_eq (m : StringMap) :
    ∀ (ps : List DeviceTreeProperty) (dtb : List Nat), dtb.length % 4 = 0 →
    writeProps dtb m ps = dtb ++ propsBytes m ps := by
  intro ps
  induction ps with
  | nil => intro dtb h; simp [writeProps, propsBytes]
  | cons p ps ih =>
    intro dtb h
    unfold writeProps propsBytes
    rw [writeProp_eq dtb m p h]
    rw [ih (dtb ++ propBytes m p) (by simp [List.length_append]; have := propBytes_mod m p; omega)]
    simp [List.append_assoc]

theorem writeNodeHead_eq (dtb : List Nat) (name : List Nat) (h : dtb.length % 4 = 0) :
    padAlign (dtb ++ be32 FDT_BEGIN_NODE ++ name ++ [0]) = dtb ++ nodeHeadBytes name := by
  unfold padAlign nodeHeadBytes
  have hlen : (dtb ++ be32 FDT_BEGIN_NODE ++ name ++ [0]).length =
      (dtb.length + 4) + (name.length + 1) := by
    simp [List.length_append, be32_length]
    omega
  rw [hlen, alignTag_add (dtb.length + 4) (name.length + 1) (by omega)]
  have harith : dtb.length + 4 + alignTag (name.length + 1) -
      (dtb.length + 4 + (name.length + 1)) =
      alignTag (name.length + 1) - (name.length + 1) := by omega
  rw [harith]
  simp [List.append_assoc]

mutual

theorem writeNode_eq (m : StringMap) :
    ∀ (n : DeviceTreeNode) (dtb : List Nat), dtb.length % 4 = 0 →
    writeNode dtb m n = dtb ++ nodeBytes m n
  | .mk name props children, dtb, h => by
    show writeNodes (writeProps (padAlign (dtb ++ be32 FDT_BEGIN_NODE ++ name ++ [0]))
      m props) m children ++ be32 FDT_END_NODE = _
    rw [writeNodeHead_eq dtb name h]
    rw [writeProps_eq m props (dtb ++ nodeHeadBytes name)
      (by rw [List.length_append]; have := nodeHeadBytes_mod name; omega)]
    rw [writeNodes_eq m children (dtb ++ nodeHeadBytes name ++ propsBytes m props)
      (by simp only [List.length_append]
          have h1 := nodeHeadBytes_mod name
          have h2 := propsBytes_mod m props
          omega)]
    show _ = dtb ++ nodeBytes m (.mk name props children)
    unfold nodeBytes
    simp [List.append_assoc]

theorem writeNodes_eq (m : StringMap) :
    ∀ (cs : List DeviceTreeNode) (dtb : List Nat), dtb.length % 4 = 0 →
    writeNodes dtb m cs = dtb ++ nodesBytes m cs
  | [], dtb, h => by simp [writeNodes, nodesBytes]
  | c :: cs, dtb, h => by
    unfold writeNodes nodesBytes
    rw [writeNode_eq m c dtb h]
    rw [writeNodes_eq m cs (dtb ++ nodeBytes m c)
      (by rw [List.length_append]; have := nodeBytes_mod m c; omega)]
    simp [List.append_assoc]

end

theorem writeRoot_eq (dtb : List Nat) (m : StringMap) (root : DeviceTreeNode)
    (h : dtb.length % 4 = 0) :
    writeRoot dtb m root = dtb ++ nodeBytes m root ++ be32 FDT_END := by
  unfold writeRoot
  rw [writeNode_eq m root dtb h]

theorem calculatePropsSize_snd (m m' : StringMap) :
    ∀ ps : List DeviceTreeProperty,
    (calculatePropsSize m ps).2 = (propsBytes m' ps).length := by
  intro ps
  induction ps generalizing m with
  | nil => rfl
  | cons p ps ih =>
    show (calculatePropSize m p).2 +
      (calculatePropsSize (calculatePropSize m p).1 ps).2 =
      (propBytes m' p ++ propsBytes m' ps).length
    rw [ih (calculatePropSize m p).1]
    rw [List.length_append, propBytes_length]
    show 4 + 4 + 4 + alignTag p.value.length + _ = _
    omega

mutual

theorem calculateNodeSize_snd (m m' : StringMap) :
    ∀ n : DeviceTreeNode, (calculateNodeSize m n).2 = (nodeBytes m' n).length
  | .mk name props children => by
    show FDT_TAGSIZE + alignTag (name.length + 1) +
      (calculatePropsSize m props).2 +
      (calculateNodesSize (calculatePropsSize m props).1 children).2 + FDT_TAGSIZE = _
    unfold nodeBytes
    simp only [List.length_append]
    rw [nodeHeadBytes_length]
    rw [calculatePropsSize_snd m m' props]
    rw [calculateNodesSize_snd (calculatePropsSize m props).1 m' children]
    show 4 + _ + _ + _ + 4 = _
    have h4 : (be32 FDT_END_NODE).length = 4 := rfl
    omega

theorem calculateNodesSize_snd (m m' : StringMap) :
    ∀ cs : List DeviceTreeNode, (calculateNodesSize m cs).2 = (nodesBytes m' cs).length
  | [] => by rfl
  | c :: cs => by
    show (calculateNodeSize m c).2 + (calculateNodesSize (calculateNodeSize m c).1 cs).2 = _
    unfold nodesBytes
    rw [List.length_append]
    rw [calculateNodeSize_snd m m' c]
    rw [calculateNodesSize_snd (calculateNodeSize m c).1 m' cs]

end

/-! ## String-map layout lemmas -/

theorem esBlock_append (es es' : List (List Nat × Nat)) :
    esBlock (es ++ es') = esBlock es ++ esBlock es' := by
  unfold esBlock
  simp [List.flatMap_append]

theorem esBlock_cons (e : List Nat × Nat) (es : List (List Nat × Nat)) :
    esBlock (e :: es) = (e.1 ++ [0]) ++ esBlock es := by
  unfold esBlock
  simp

theorem esBlock_cons_length (e : List Nat × Nat) (es : List (List Nat × Nat)) :
    (esBlock (e :: es)).length = e.1.length + 1 + (esBlock es).length := by
  rw [esBlock_cons]
  simp [List.length_append]
  omega

theorem esOk_append_one (k : List Nat) :
    ∀ (es : List (List Nat × Nat)) (cur : Nat), esOk es cur →
    esOk (es ++ [(k, cur + (esBlock es).length)]) cur
  | [], cur, _ => by
    refine ⟨by simp [esBlock], trivial⟩
  | e :: es, cur, h => by
    refine ⟨h.1, ?_⟩
    have ih := esOk_append_one k es (cur + e.1.length + 1) h.2
    have harith : cur + e.1.length + 1 + (esBlock es).length =
        cur + (esBlock (e :: es)).length := by
      rw [esBlock_cons_length]
      omega
    rw [harith] at ih
    exact ih

theorem smOk_new : smOk StringMap.new :=
  ⟨trivial, rfl⟩

theorem smOk_insert (m : StringMap) (k : List Nat) (h : smOk m) :
    smOk (m.insert k) := by
  unfold StringMap.insert
  match hl : m.lookup k with
  | some o => exact h
  | none =>
    refine ⟨?_, ?_⟩
    · show esOk (m.entries ++ [(k, m.next_offset)]) 0
      have := esOk_append_one k m.entries 0 h.1
      rw [← h.2] at this
      simpa using this
    · show m.next_offset + k.length + 1 = (esBlock (m.entries ++ [(k, m.next_offset)])).length
      rw [esBlock_append, List.length_append, ← h.2]
      simp [esBlock]
      omega

theorem find?_append_of_some {α : Type} (p : α → Bool) :
    ∀ (l₁ l₂ : List α) (e : α), l₁.find? p = some e → (l₁ ++ l₂).find? p = some e := by
  intro l₁ l₂ e h
  induction l₁ with
  | nil => simp at h
  | cons a l ih =>
    rw [List.find?_cons] at h
    show List.find? p (a :: (l ++ l₂)) = some e
    rw [List.find?_cons]
    match hp : p a with
    | true => rw [hp] at h; simpa [hp] using h
    | false => rw [hp] at h; simp only []; exact ih h

theorem find?_append_of_none {α : Type} (p : α → Bool) :
    ∀ (l₁ l₂ : List α), l₁.find? p = none → (l₁ ++ l₂).find? p = l₂.find? p := by
  intro l₁ l₂ h
  induction l₁ with
  | nil => simp
  | cons a l ih =>
    rw [List.find?_cons] at h
    show List.find? p (a :: (l ++ l₂)) = _
    rw [List.find?_cons]
    match hp : p a with
    | true => rw [hp] at h; simp at h
    | false => rw [hp] at h; simp only []; exact ih h

theorem esOk_find : ∀ (es : List (List Nat × Nat)) (cur : Nat) (key : List Nat)
    (e : List Nat × Nat),
    esOk es cur → es.find? (fun x => x.1 = key) = some e →
    e.1 = key ∧ cur ≤ e.2 ∧
    ∃ tail, (esBlock es).drop (e.2 - cur) = key ++ 0 :: tail ∧
      e.2 + key.length + 1 ≤ cur + (esBlock es).length := by
  intro es
  induction es with
  | nil => intro cur key e h hf; simp at hf
  | cons x es ih =>
    intro cur key e h hf
    have h1 : x.2 = cur := h.1
    rw [List.find?_cons] at hf
    by_cases hk : x.1 = key
    · have hex : x = e := by simpa [hk] using hf
      subst hex
      refine ⟨hk, by omega, esBlock es, ?_, ?_⟩
      · have h0 : x.2 - cur = 0 := by omega
        rw [h0, List.drop_zero, esBlock_cons, hk]
        simp
      · have hk2 : x.1.length = key.length := by rw [hk]
        rw [esBlock_cons_length]
        omega
    · have hf' : List.find? (fun x => decide (x.1 = key)) es = some e := by
        simpa [hk] using hf
      obtain ⟨hkey, hle, tail, hdrop, hbound⟩ := ih (cur + x.1.length + 1) key e h.2 hf'
      refine ⟨hkey, by omega, tail, ?_, ?_⟩
      · rw [esBlock_cons]
        have harith : e.2 - cur = (x.1.length + 1) + (e.2 - (cur + x.1.length + 1)) := by
          omega
        have hlen : (x.1 ++ [0]).length = x.1.length + 1 := by simp
        rw [harith, ← hlen, drop_append_add]
        exact hdrop
      · rw [esBlock_cons_length]
        omega

theorem esOk_ge : ∀ (es : List (List Nat × Nat)) (cur : Nat), esOk es cur →
    ∀ e ∈ es, cur ≤ e.2
  | [], _, _ => by intro e he; simp at he
  | x :: es, cur, h => by
    intro e he
    rcases List.mem_cons.mp he with rfl | hmem
    · exact Nat.le_of_eq h.1.symm
    · have := esOk_ge es (cur + x.1.length + 1) h.2 e hmem
      omega

theorem esOk_pairwise : ∀ (es : List (List Nat × Nat)) (cur : Nat), esOk es cur →
    List.Pairwise (fun a b : List Nat × Nat => a.2 ≤ b.2) es
  | [], _, _ => List.Pairwise.nil
  | x :: es, cur, h => by
    refine List.Pairwise.cons ?_ (esOk_pairwise es (cur + x.1.length + 1) h.2)
    intro e he
    have := esOk_ge es (cur + x.1.length + 1) h.2 e he
    have h1 : x.2 = cur := h.1
    omega

theorem insertByOffset_of_le (x : List Nat × Nat) :
    ∀ l : List (List Nat × Nat), (∀ y ∈ l, x.2 ≤ y.2) → insertByOffset x l = x :: l
  | [], _ => rfl
  | y :: ys, h => by
    unfold insertByOffset
    rw [if_pos (h y (List.mem_cons_self y ys))]

theorem sortByOffset_of_pairwise :
    ∀ l : List (List Nat × Nat), List.Pairwise (fun a b : List Nat × Nat => a.2 ≤ b.2) l →
    sortByOffset l = l
  | [], _ => rfl
  | x :: xs, h => by
    unfold sortByOffset
    rw [sortByOffset_of_pairwise xs h.of_cons]
    exact insertByOffset_of_le x xs (List.pairwise_cons.mp h).1

theorem writeStringBlock_eq (m : StringMap) (dtb : List Nat) (h : smOk m) :
    m.writeStringBlock dtb = dtb ++ esBlock m.entries := by
  unfold StringMap.writeStringBlock
  rw [sortByOffset_of_pairwise m.entries (esOk_pairwise m.entries 0 h.1)]
  rfl

theorem lookup_isSome_iff_mem (m : StringMap) (key : List Nat) :
    (m.lookup key).isSome = true ↔ key ∈ smKeys m := by
  unfold StringMap.lookup smKeys
  induction m.entries with
  | nil => simp
  | cons x es ih =>
    rw [List.find?_cons]
    by_cases hk : x.1 = key
    · simp [hk]
    · have hk' : ¬(key = x.1) := fun hh => hk hh.symm
      simp only [List.map_cons, List.mem_cons]
      rw [show (decide (x.1 = key)) = false from by simp [hk]]
      show (match List.find? (fun e : List Nat × Nat => decide (e.1 = key)) es with
        | some e => some e.2
        | none => none).isSome = true ↔
        key = x.1 ∨ key ∈ List.map (fun e : List Nat × Nat => e.1) es
      rw [ih]
      simp [hk']

theorem lookup_insert_mono (m : StringMap) (k k' : List Nat) (o : Nat)
    (h : m.lookup k = some o) : (m.insert k').lookup k = some o := by
  unfold StringMap.insert
  match hl : m.lookup k' with
  | some _ => exact h
  | none =>
    show StringMap.lookup ⟨m.entries ++ [(k', m.next_offset)], _⟩ k = some o
    unfold StringMap.lookup at h ⊢
    match hf : m.entries.find? (fun e => e.1 = k) with
    | none => rw [hf] at h; exact absurd h (by simp)
    | some e =>
      rw [hf] at h
      rw [find?_append_of_some _ m.entries _ e hf]
      exact h

theorem lookup_insert_self (m : StringMap) (k : List Nat) :
    ((m.insert k).lookup k).isSome = true := by
  unfold StringMap.insert
  match hl : m.lookup k with
  | some o => rw [hl]; rfl
  | none =>
    show (StringMap.lookup ⟨m.entries ++ [(k, m.next_offset)], _⟩ k).isSome = true
    unfold StringMap.lookup at hl ⊢
    match hf : m.entries.find? (fun e => e.1 = k) with
    | some e => rw [hf] at hl; exact absurd hl (by simp)
    | none =>
      rw [find?_append_of_none _ m.entries _ hf]
      simp

theorem smOk_calculatePropsSize (ps : List DeviceTreeProperty) :
    ∀ m : StringMap, smOk m → smOk (calculatePropsSize m ps).1 := by
  induction ps with
  | nil => intro m h; exact h
  | cons p ps ih =>
    intro m h
    show smOk (calculatePropsSize (calculatePropSize m p).1 ps).1
    exact ih _ (smOk_insert m p.name h)

mutual

theorem smOk_calculateNodeSize : ∀ (n : DeviceTreeNode) (m : StringMap),
    smOk m → smOk (calculateNodeSize m n).1
  | .mk name props children, m, h => by
    show smOk (calculateNodesSize (calculatePropsSize m props).1 children).1
    exact smOk_calculateNodesSize children _ (smOk_calculatePropsSize props m h)

theorem smOk_calculateNodesSize : ∀ (cs : List DeviceTreeNode) (m : StringMap),
    smOk m → smOk (calculateNodesSize m cs).1
  | [], m, h => h
  | c :: cs, m, h => by
    show smOk (calculateNodesSize (calculateNodeSize m c).1 cs).1
    exact smOk_calculateNodesSize cs _ (smOk_calculateNodeSize c m h)

end

theorem lookup_calculatePropsSize_mono (ps : List DeviceTreeProperty) :
    ∀ (m : StringMap) (k : List Nat) (o : Nat), m.lookup k = some o →
    (calculatePropsSize m ps).1.lookup k = some o := by
  induction ps with
  | nil => intro m k o h; exact h
  | cons p ps ih =>
    intro m k o h
    show ((calculatePropsSize (calculatePropSize m p).1 ps).1.lookup k) = some o
    exact ih _ k o (lookup_insert_mono m k p.name o h)

mutual

theorem lookup_calculateNodeSize_mono : ∀ (n : DeviceTreeNode) (m : StringMap)
    (k : List Nat) (o : Nat), m.lookup k = some o →
    (calculateNodeSize m n).1.lookup k = some o
  | .mk name props children, m, k, o, h => by
    show (calculateNodesSize (calculatePropsSize m props).1 children).1.lookup k = some o
    exact lookup_calculateNodesSize_mono children _ k o
      (lookup_calculatePropsSize_mono props m k o h)

theorem lookup_calculateNodesSize_mono : ∀ (cs : List DeviceTreeNode) (m : StringMap)
    (k : List Nat) (o : Nat), m.lookup k = some o →
    (calculateNodesSize m cs).1.lookup k = some o
  | [], _, _, _, h => h
  | c :: cs, m, k, o, h => by
    show (calculateNodesSize (calculateNodeSize m c).1 cs).1.lookup k = some o
    exact lookup_calculateNodesSize_mono cs _ k o (lookup_calculateNodeSize_mono c m k o h)

end

theorem isSome_exists {o : Option Nat} (h : o.isSome = true) : ∃ v, o = some v := by
  match o, h with
  | some v, _ => exact ⟨v, rfl⟩

theorem lookup_calculatePropsSize_contains (ps : List DeviceTreeProperty) :
    ∀ (m : StringMap) (p : DeviceTreeProperty), p ∈ ps →
    (((calculatePropsSize m ps).1).lookup p.name).isSome = true := by
  induction ps with
  | nil => intro m p h; simp at h
  | cons q ps ih =>
    intro m p h
    show (((calculatePropsSize (calculatePropSize m q).1 ps).1).lookup p.name).isSome = true
    rcases List.mem_cons.mp h with rfl | hmem
    · obtain ⟨o, ho⟩ := isSome_exists (lookup_insert_self m p.name)
      have ho' : ((calculatePropSize m p).1).lookup p.name = some o := ho
      rw [lookup_calculatePropsSize_mono ps _ p.name o ho']
      rfl
    · exact ih _ p hmem

mutual

theorem lookup_calculateNodeSize_contains : ∀ (n : DeviceTreeNode) (m : StringMap)
    (name : List Nat), name ∈ dfsPropNames n →
    (((calculateNodeSize m n).1).lookup name).isSome = true
  | .mk nm props children, m, name, h => by
    show (((calculateNodesSize (calculatePropsSize m props).1 children).1).lookup
      name).isSome = true
    unfold dfsPropNames at h
    rcases List.mem_append.mp h with hp | hc
    · obtain ⟨p, hpmem, hpname⟩ := List.mem_map.mp hp
      subst hpname
      obtain ⟨o, ho⟩ := isSome_exists
        (lookup_calculatePropsSize_contains props m p hpmem)
      rw [lookup_calculateNodesSize_mono children _ p.name o ho]
      rfl
    · exact lookup_calculateNodesSize_contains children _ name hc

theorem lookup_calculateNodesSize_contains : ∀ (cs : List DeviceTreeNode) (m : StringMap)
    (name : List Nat), name ∈ dfsPropNamesList cs →
    (((calculateNodesSize m cs).1).lookup name).isSome = true
  | [], _, name, h => by unfold dfsPropNamesList at h; exact absurd h (by simp)
  | c :: cs, m, name, h => by
    show (((calculateNodesSize (calculateNodeSize m c).1 cs).1).lookup name).isSome = true
    unfold dfsPropNamesList at h
    rcases List.mem_append.mp h with hc | hcs
    · obtain ⟨o, ho⟩ := isSome_exists (lookup_calculateNodeSize_contains c m name hc)
      rw [lookup_calculateNodesSize_mono cs _ name o ho]
      rfl
    · exact lookup_calculateNodesSize_contains cs _ name hcs

end

theorem smKeys_insert (m : StringMap) (k : List Nat) :
    smKeys (m.insert k) = if k ∈ smKeys m then smKeys m else smKeys m ++ [k] := by
  unfold StringMap.insert
  by_cases hmem : k ∈ smKeys m
  · have hs : (m.lookup k).isSome = true := (lookup_isSome_iff_mem m k).mpr hmem
    obtain ⟨o, ho⟩ := isSome_exists hs
    rw [ho, if_pos hmem]
  · have hs : (m.lookup k).isSome = false := by
      rw [← Bool.not_eq_true]
      intro hc
      exact hmem ((lookup_isSome_iff_mem m k).mp hc)
    have hn : m.lookup k = none := by
      match ho : m.lookup k with
      | none => rfl
      | some o => rw [ho] at hs; simp at hs
    rw [hn, if_neg hmem]
    unfold smKeys
    simp

theorem firstSeenAux_append (acc : List (List Nat)) :
    ∀ xs ys : List (List Nat),
    firstSeenAux acc (xs ++ ys) = firstSeenAux (firstSeenAux acc xs) ys := by
  intro xs
  induction xs generalizing acc with
  | nil => intro ys; rfl
  | cons x xs ih =>
    intro ys
    show firstSeenAux (if x ∈ acc then acc else acc ++ [x]) (xs ++ ys) = _
    rw [ih]
    rfl

theorem smKeys_calculatePropsSize (ps : List DeviceTreeProperty) :
    ∀ m : StringMap,
    smKeys (calculatePropsSize m ps).1 =
      firstSeenAux (smKeys m) (ps.map (fun p => p.name)) := by
  induction ps with
  | nil => intro m; rfl
  | cons p ps ih =>
    intro m
    show smKeys (calculatePropsSize (calculatePropSize m p).1 ps).1 = _
    rw [ih]
    show _ = firstSeenAux (if p.name ∈ smKeys m then smKeys m else smKeys m ++ [p.name])
      (ps.map (fun p => p.name))
    rw [← smKeys_insert]
    rfl

mutual

theorem smKeys_calculateNodeSize : ∀ (n : DeviceTreeNode) (m : StringMap),
    smKeys (calculateNodeSize m n).1 = firstSeenAux (smKeys m) (dfsPropNames n)
  | .mk name props children, m => by
    show smKeys (calculateNodesSize (calculatePropsSize m props).1 children).1 = _
    have hdfs : dfsPropNames (DeviceTreeNode.mk name props children) =
      props.map (fun p => p.name) ++ dfsPropNamesList children := rfl
    rw [hdfs, firstSeenAux_append]
    rw [smKeys_calculateNodesSize children (calculatePropsSize m props).1]
    rw [smKeys_calculatePropsSize props m]

theorem smKeys_calculateNodesSize : ∀ (cs : List DeviceTreeNode) (m : StringMap),
    smKeys (calculateNodesSize m cs).1 = firstSeenAux (smKeys m) (dfsPropNamesList cs)
  | [], m => rfl
  | c :: cs, m => by
    have hdfs : dfsPropNamesList (c :: cs) = dfsPropNames c ++ dfsPropNamesList cs := rfl
    rw [hdfs, firstSeenAux_append]
    show smKeys (calculateNodesSize (calculateNodeSize m c).1 cs).1 = _
    rw [smKeys_calculateNodesSize cs (calculateNodeSize m c).1]
    rw [smKeys_calculateNodeSize c m]

end

theorem firstSeenAux_nodup (l : List (List Nat)) :
    ∀ acc : List (List Nat), acc.Nodup → (firstSeenAux acc l).Nodup := by
  induction l with
  | nil => intro acc h; exact h
  | cons x xs ih =>
    intro acc h
    show (firstSeenAux (if x ∈ acc then acc else acc ++ [x]) xs).Nodup
    by_cases hx : x ∈ acc
    · rw [if_pos hx]; exact ih acc h
    · rw [if_neg hx]
      refine ih (acc ++ [x]) ?_
      simp [List.nodup_append, h, hx]

theorem firstSeen_nodup (l : List (List Nat)) : (firstSeen l).Nodup :=
  firstSeenAux_nodup l [] List.nodup_nil

/-! ## Reading back writer output -/

theorem drop_add_of_drop (D : List Nat) (off k : Nat) (X : List Nat)
    (h : D.drop off = X) : D.drop (off + k) = X.drop k := by
  rw [← List.drop_drop, h]

theorem drop_be32_step (D : List Nat) (off w : Nat) (X : List Nat)
    (h : D.drop off = be32 w ++ X) : D.drop (off + 4) = X := by
  rw [drop_add_of_drop D off 4 _ h,
    show (4 : Nat) = (be32 w).length from rfl, drop_append_len]

theorem readU32_of_drop (D : List Nat) (off w : Nat) (X : List Nat)
    (h : D.drop off = be32 w ++ X) (hw : w < 2 ^ 32) :
    readU32 D off = some w := by
  rw [readU32_congr D off _ h, readU32_be32_lt w X hw]

theorem length_sub_of_drop (D : List Nat) (off : Nat) (X : List Nat)
    (h : D.drop off = X) : D.length - off = X.length := by
  rw [← h, List.length_drop]

theorem add_le_length_of_drop (D : List Nat) (off k : Nat) (X : List Nat)
    (h : D.drop off = X) (hk : k ≤ X.length) (hk0 : 0 < X.length) :
    off + k ≤ D.length := by
  have := length_sub_of_drop D off X h
  omega

theorem readToken_prop (D : List Nat) (off : Nat) (X : List Nat)
    (h : D.drop off = be32 FDT_PROP ++ X) : readToken D off = .ok .Prop := by
  unfold readToken
  rw [readU32_of_drop D off _ X h (by decide)]
  rfl

theorem readToken_begin (D : List Nat) (off : Nat) (X : List Nat)
    (h : D.drop off = be32 FDT_BEGIN_NODE ++ X) : readToken D off = .ok .BeginNode := by
  unfold readToken
  rw [readU32_of_drop D off _ X h (by decide)]
  rfl

theorem readToken_end_node (D : List Nat) (off : Nat) (X : List Nat)
    (h : D.drop off = be32 FDT_END_NODE ++ X) : readToken D off = .ok .EndNode := by
  unfold readToken
  rw [readU32_of_drop D off _ X h (by decide)]
  rfl

theorem readToken_end (D : List Nat) (off : Nat) (X : List Nat)
    (h : D.drop off = be32 FDT_END ++ X) : readToken D off = .ok .End := by
  unfold readToken
  rw [readU32_of_drop D off _ X h (by decide)]
  rfl

theorem nodeOk_unfold (name : List Nat) (props : List DeviceTreeProperty)
    (children : List DeviceTreeNode)
    (h : nodeOk (.mk name props children) = true) :
    nameOk name = true ∧
    (∀ p ∈ props, nameOk p.name = true ∧ p.value.length < 2 ^ 32) ∧
    nodesOk children = true := by
  unfold nodeOk at h
  simp only [Bool.and_eq_true, List.all_eq_true] at h
  refine ⟨h.1.1, ?_, h.2⟩
  intro p hp
  have := h.1.2 p hp
  simp only [Bool.and_eq_true, decide_eq_true_eq] at this
  exact this

theorem nodesOk_unfold (c : DeviceTreeNode) (cs : List DeviceTreeNode)
    (h : nodesOk (c :: cs) = true) : nodeOk c = true ∧ nodesOk cs = true := by
  unfold nodesOk at h
  simpa [Bool.and_eq_true] using h

theorem nameOk_unfold (name : List Nat) (h : nameOk name = true) :
    (∀ b ∈ name, b ≠ 0) ∧ validUtf8 name = true := by
  unfold nameOk at h
  simp only [Bool.and_eq_true, List.all_eq_true, decide_eq_true_eq] at h
  exact h

theorem findStringEnd_of_drop (D : List Nat) (off : Nat) (name X : List Nat)
    (h : D.drop off = name ++ 0 :: X) (hname : ∀ b ∈ name, b ≠ 0) :
    findStringEnd D off = .ok (off + name.length + 1) := by
  unfold findStringEnd
  rw [h, findNul_append name X hname]

theorem stringAtOffset_of_drop (D : List Nat) (off : Nat) (name X : List Nat)
    (h : D.drop off = name ++ 0 :: X) (hname : ∀ b ∈ name, b ≠ 0)
    (hu : validUtf8 name = true) :
    stringAtOffset D off = .ok name := by
  unfold stringAtOffset
  rw [h, findNul_append name X hname]
  simp only [List.take_left, hu, if_true]

theorem drop_nodeHead (D : List Nat) (off : Nat) (name Y : List Nat)
    (h : D.drop off = nodeHeadBytes name ++ Y) :
    D.drop (off + 4) = name ++ 0 ::
      (List.replicate (alignTag (name.length + 1) - (name.length + 1)) 0 ++ Y) := by
  have h2 : D.drop off = be32 FDT_BEGIN_NODE ++ (name ++ 0 ::
      (List.replicate (alignTag (name.length + 1) - (name.length + 1)) 0 ++ Y)) := by
    rw [h]
    unfold nodeHeadBytes
    simp [List.append_assoc]
  exact drop_be32_step D off _ _ h2

theorem skipSubtree_props (D : List Nat) (sm : StringMap) :
    ∀ (ps : List DeviceTreeProperty) (off : Nat) (rest : List Nat) (dd m : Nat),
    D.drop off = propsBytes sm ps ++ rest → off % 4 = 0 →
    (∀ p ∈ ps, p.value.length < 2 ^ 32) →
    skipSubtree D off dd (ps.length + m) =
      skipSubtree D (off + (propsBytes sm ps).length) dd m := by
  intro ps
  induction ps with
  | nil =>
    intro off rest dd m h ha hv
    show skipSubtree D off dd (0 + m) = skipSubtree D (off + 0) dd m
    rw [Nat.zero_add, Nat.add_zero]
  | cons p ps ih =>
    intro off rest dd m h ha hv
    have hps : propsBytes sm (p :: ps) = propBytes sm p ++ propsBytes sm ps := rfl
    rw [hps, List.append_assoc] at h
    have hprop : D.drop off = be32 FDT_PROP ++ (be32 p.value.length ++
        be32 (sm.getOffset p.name) ++ p.value ++
        List.replicate (alignTag p.value.length - p.value.length) 0 ++
        (propsBytes sm ps ++ rest)) := by
      rw [h]
      unfold propBytes
      simp [List.append_assoc]
    have hfuel : (p :: ps).length + m = (ps.length + m) + 1 := by simp; omega
    rw [hfuel]
    conv_lhs => unfold skipSubtree
    simp only [FDT_TAGSIZE]
    rw [readToken_prop D off _ hprop]
    simp only []
    unfold nextPropertyOffset
    have hlen : D.drop (off + 4) = be32 p.value.length ++
        (be32 (sm.getOffset p.name) ++ p.value ++
        List.replicate (alignTag p.value.length - p.value.length) 0 ++
        (propsBytes sm ps ++ rest)) := by
      have := drop_be32_step D off _ _ hprop
      rw [this]
      simp [List.append_assoc]
    rw [readU32_of_drop D (off + 4) _ _ hlen (hv p (List.mem_cons_self p ps))]
    simp only []
    have hnext : alignTag (off + 4 + 8 + p.value.length) = off + (propBytes sm p).length := by
      rw [propBytes_length]
      have : off + 4 + 8 + p.value.length = (off + 12) + p.value.length := by omega
      rw [this, alignTag_add (off + 12) p.value.length (by omega)]
      omega
    rw [hnext]
    have hdrop2 : D.drop (off + (propBytes sm p).length) = propsBytes sm ps ++ rest := by
      have h3 := drop_add_of_drop D off (propBytes sm p).length _ h
      rw [h3, drop_append_len]
    rw [ih (off + (propBytes sm p).length) rest dd m hdrop2
      (by have := propBytes_mod sm p; omega)
      (fun q hq => hv q (List.mem_cons_of_mem p hq))]
    rw [hps, List.length_append, ← Nat.add_assoc]

theorem nodeBytes_decomp (sm : StringMap) (name : List Nat)
    (props : List DeviceTreeProperty) (children : List DeviceTreeNode) (rest : List Nat) :
    nodeBytes sm (.mk name props children) ++ rest =
      nodeHeadBytes name ++ (propsBytes sm props ++ (nodesBytes sm children ++
        (be32 FDT_END_NODE ++ rest))) := by
  unfold nodeBytes
  simp [List.append_assoc]

mutual

theorem skipSubtree_node (D : List Nat) (sm : StringMap) :
    ∀ (n : DeviceTreeNode) (off : Nat) (rest : List Nat) (d m : Nat),
    D.drop off = nodeBytes sm n ++ rest → off % 4 = 0 → nodeOk n = true →
    skipSubtree D off (d + 1) (tokNode n + m) =
      skipSubtree D (off + (nodeBytes sm n).length) (d + 1) m
  | .mk name props children, off, rest, d, m, hdrop, ha, hok => by
    obtain ⟨hname, hprops, hchl⟩ := nodeOk_unfold name props children hok
    obtain ⟨hnul, _⟩ := nameOk_unfold name hname
    rw [nodeBytes_decomp] at hdrop
    have hfuel : tokNode (.mk name props children) + m =
        (props.length + (tokNodes children + (1 + m))) + 1 := by
      show 1 + props.length + tokNodes children + 1 + m = _
      omega
    rw [hfuel]
    conv_lhs => unfold skipSubtree
    simp only [FDT_TAGSIZE]
    have hbegin : D.drop off = be32 FDT_BEGIN_NODE ++ (name ++ 0 ::
        (List.replicate (alignTag (name.length + 1) - (name.length + 1)) 0 ++
          (propsBytes sm props ++ (nodesBytes sm children ++ (be32 FDT_END_NODE ++ rest))))) := by
      rw [hdrop]
      unfold nodeHeadBytes
      simp [List.append_assoc]
    rw [readToken_begin D off _ hbegin]
    simp only []
    have hdropName := drop_nodeHead D off name _ hdrop
    have hfse := findStringEnd_of_drop D (off + 4) name _ hdropName hnul
    rw [hfse]
    simp only []
    have hbody : alignTag (off + 4 + name.length + 1) = off + (nodeHeadBytes name).length := by
      rw [nodeHeadBytes_length]
      have h1 : off + 4 + name.length + 1 = (off + 4) + (name.length + 1) := by omega
      rw [h1, alignTag_add (off + 4) (name.length + 1) (by omega)]
      omega
    rw [hbody]
    have hdropBody : D.drop (off + (nodeHeadBytes name).length) =
        propsBytes sm props ++ (nodesBytes sm children ++ (be32 FDT_END_NODE ++ rest)) := by
      have h3 := drop_add_of_drop D off (nodeHeadBytes name).length _ hdrop
      rw [h3, drop_append_len]
    rw [skipSubtree_props D sm props (off + (nodeHeadBytes name).length) _ (d + 1 + 1)
      (tokNodes children + (1 + m)) hdropBody
      (by have := nodeHeadBytes_mod name; omega)
      (fun p hp => (hprops p hp).2)]
    have hdropKids : D.drop (off + (nodeHeadBytes name).length + (propsBytes sm props).length) =
        nodesBytes sm children ++ (be32 FDT_END_NODE ++ rest) := by
      have h3 := drop_add_of_drop D (off + (nodeHeadBytes name).length)
        (propsBytes sm props).length _ hdropBody
      rw [h3, drop_append_len]
    rw [skipSubtree_nodes D sm children _ _ (d + 1) (1 + m) hdropKids
      (by have h1 := nodeHeadBytes_mod name
          have h2 := propsBytes_mod sm props
          omega) hchl]
    have hdropEnd : D.drop (off + (nodeHeadBytes name).length + (propsBytes sm props).length +
        (nodesBytes sm children).length) = be32 FDT_END_NODE ++ rest := by
      have h3 := drop_add_of_drop D
        (off + (nodeHeadBytes name).length + (propsBytes sm props).length)
        (nodesBytes sm children).length _ hdropKids
      rw [h3, drop_append_len]
    have hm1 : 1 + m = m + 1 := by omega
    rw [hm1]
    conv_lhs => unfold skipSubtree
    rw [readToken_end_node D _ _ hdropEnd]
    simp only [FDT_TAGSIZE]
    rw [if_neg (by omega), if_neg (by omega)]
    have harith : off + (nodeHeadBytes name).length + (propsBytes sm props).length +
        (nodesBytes sm children).length + 4 =
        off + (nodeBytes sm (.mk name props children)).length := by
      unfold nodeBytes
      simp only [List.length_append]
      have : (be32 FDT_END_NODE).length = 4 := rfl
      omega
    rw [harith]
    have hd : d + 1 + 1 - 1 = d + 1 := by omega
    rw [hd]

theorem skipSubtree_node_root (D : List Nat) (sm : StringMap) :
    ∀ (n : DeviceTreeNode) (off : Nat) (rest : List Nat) (m : Nat),
    D.drop off = nodeBytes sm n ++ rest → off % 4 = 0 → nodeOk n = true →
    skipSubtree D off 0 (tokNode n + m) = .ok (off + (nodeBytes sm n).length)
  | .mk name props children, off, rest, m, hdrop, ha, hok => by
    obtain ⟨hname, hprops, hchl⟩ := nodeOk_unfold name props children hok
    obtain ⟨hnul, _⟩ := nameOk_unfold name hname
    rw [nodeBytes_decomp] at hdrop
    have hfuel : tokNode (.mk name props children) + m =
        (props.length + (tokNodes children + (1 + m))) + 1 := by
      show 1 + props.length + tokNodes children + 1 + m = _
      omega
    rw [hfuel]
    conv_lhs => unfold skipSubtree
    simp only [FDT_TAGSIZE]
    have hbegin : D.drop off = be32 FDT_BEGIN_NODE ++ (name ++ 0 ::
        (List.replicate (alignTag (name.length + 1) - (name.length + 1)) 0 ++
          (propsBytes sm props ++ (nodesBytes sm children ++ (be32 FDT_END_NODE ++ rest))))) := by
      rw [hdrop]
      unfold nodeHeadBytes
      simp [List.append_assoc]
    rw [readToken_begin D off _ hbegin]
    simp only []
    have hdropName := drop_nodeHead D off name _ hdrop
    have hfse := findStringEnd_of_drop D (off + 4) name _ hdropName hnul
    rw [hfse]
    simp only []
    have hbody : alignTag (off + 4 + name.length + 1) = off + (nodeHeadBytes name).length := by
      rw [nodeHeadBytes_length]
      have h1 : off + 4 + name.length + 1 = (off + 4) + (name.length + 1) := by omega
      rw [h1, alignTag_add (off + 4) (name.length + 1) (by omega)]
      omega
    rw [hbody]
    have hdropBody : D.drop (off + (nodeHeadBytes name).length) =
        propsBytes sm props ++ (nodesBytes sm children ++ (be32 FDT_END_NODE ++ rest)) := by
      have h3 := drop_add_of_drop D off (nodeHeadBytes name).length _ hdrop
      rw [h3, drop_append_len]
    rw [skipSubtree_props D sm props (off + (nodeHeadBytes name).length) _ (0 + 1)
      (tokNodes children + (1 + m)) hdropBody
      (by have := nodeHeadBytes_mod name; omega)
      (fun p hp => (hprops p hp).2)]
    have hdropKids : D.drop (off + (nodeHeadBytes name).length + (propsBytes sm props).length) =
        nodesBytes sm children ++ (be32 FDT_END_NODE ++ rest) := by
      have h3 := drop_add_of_drop D (off + (nodeHeadBytes name).length)
        (propsBytes sm props).length _ hdropBody
      rw [h3, drop_append_len]
    rw [skipSubtree_nodes D sm children _ _ 0 (1 + m) hdropKids
      (by have h1 := nodeHeadBytes_mod name
          have h2 := propsBytes_mod sm props
          omega) hchl]
    have hdropEnd : D.drop (off + (nodeHeadBytes name).length + (propsBytes sm props).length +
        (nodesBytes sm children).length) = be32 FDT_END_NODE ++ rest := by
      have h3 := drop_add_of_drop D
        (off + (nodeHeadBytes name).length + (propsBytes sm props).length)
        (nodesBytes sm children).length _ hdropKids
      rw [h3, drop_append_len]
    have hm1 : 1 + m = m + 1 := by omega
    rw [hm1]
    conv_lhs => unfold skipSubtree
    rw [readToken_end_node D _ _ hdropEnd]
    simp only [FDT_TAGSIZE, if_true]
    have harith : off + (nodeHeadBytes name).length + (propsBytes sm props).length +
        (nodesBytes sm children).length + 4 =
        off + (nodeBytes sm (.mk name props children)).length := by
      unfold nodeBytes
      simp only [List.length_append]
      have : (be32 FDT_END_NODE).length = 4 := rfl
      omega
    rw [harith]

theorem skipSubtree_nodes (D : List Nat) (sm : StringMap) :
    ∀ (cs : List DeviceTreeNode) (off : Nat) (rest : List Nat) (d m : Nat),
    D.drop off = nodesBytes sm cs ++ rest → off % 4 = 0 → nodesOk cs = true →
    skipSubtree D off (d + 1) (tokNodes cs + m) =
      skipSubtree D (off + (nodesBytes sm cs).length) (d + 1) m
  | [], off, rest, d, m, hdrop, ha, hok => by
    show skipSubtree D off (d + 1) (0 + m) = skipSubtree D (off + 0) (d + 1) m
    rw [Nat.zero_add]
    rw [Nat.add_zero off]
  | c :: cs, off, rest, d, m, hdrop, ha, hok => by
    obtain ⟨hc, hcs⟩ := nodesOk_unfold c cs hok
    have hns : nodesBytes sm (c :: cs) = nodeBytes sm c ++ nodesBytes sm cs := rfl
    rw [hns, List.append_assoc] at hdrop
    have hfuel : tokNodes (c :: cs) + m = tokNode c + (tokNodes cs + m) := by
      show tokNode c + tokNodes cs + m = _
      omega
    rw [hfuel]
    rw [skipSubtree_node D sm c off _ d (tokNodes cs + m) hdrop ha hc]
    have hdrop2 : D.drop (off + (nodeBytes sm c).length) = nodesBytes sm cs ++ rest := by
      have h3 := drop_add_of_drop D off (nodeBytes sm c).length _ hdrop
      rw [h3, drop_append_len]
    rw [skipSubtree_nodes D sm cs _ rest d m hdrop2
      (by have := nodeBytes_mod sm c; omega) hcs]
    rw [hns, List.length_append, ← Nat.add_assoc]

end

theorem propBytes_decomp (sm : StringMap) (p : DeviceTreeProperty) (rest : List Nat) :
    propBytes sm p ++ rest = be32 FDT_PROP ++ (be32 p.value.length ++
      (be32 (sm.getOffset p.name) ++ (p.value ++
        (List.replicate (alignTag p.value.length - p.value.length) 0 ++ rest)))) := by
  unfold propBytes
  simp [List.append_assoc]

theorem collectProps_spec (F : Fdt) (sm : StringMap) :
    ∀ (ps : List DeviceTreeProperty) (off : Nat) (rest : List Nat) (fuel : Nat),
    F.data.drop off = propsBytes sm ps ++ rest →
    off % 4 = 0 →
    (∀ p ∈ ps, p.value.length < 2 ^ 32 ∧ sm.getOffset p.name < 2 ^ 32 ∧
      F.string (sm.getOffset p.name) = .ok p.name) →
    (∃ w, (w = FDT_BEGIN_NODE ∨ w = FDT_END_NODE) ∧ ∃ r2, rest = be32 w ++ r2) →
    ps.length < fuel →
    collectProps F off fuel = .ok (ps.map (fun p => ⟨p.name, p.value⟩)) := by
  intro ps
  induction ps with
  | nil =>
    intro off rest fuel hdrop ha hp hstop hfuel
    obtain ⟨w, hw, r2, hr2⟩ := hstop
    match fuel, hfuel with
    | f + 1, _ =>
      conv_lhs => unfold collectProps
      have hdrop2 : F.data.drop off = be32 w ++ r2 := by
        rw [hdrop, hr2]
        rfl
      rcases hw with rfl | rfl
      · rw [readToken_begin F.data off _ hdrop2]
        rfl
      · rw [readToken_end_node F.data off _ hdrop2]
        rfl
  | cons p ps ih =>
    intro off rest fuel hdrop ha hp hstop hfuel
    obtain ⟨hval, hoff, hstr⟩ := hp p (List.mem_cons_self p ps)
    have hps : propsBytes sm (p :: ps) = propBytes sm p ++ propsBytes sm ps := rfl
    rw [hps, List.append_assoc] at hdrop
    have hPB : F.data.drop off = be32 FDT_PROP ++ (be32 p.value.length ++
        (be32 (sm.getOffset p.name) ++ (p.value ++
          (List.replicate (alignTag p.value.length - p.value.length) 0 ++
            (propsBytes sm ps ++ rest))))) := by
      rw [hdrop, propBytes_decomp]
    match fuel, hfuel with
    | f + 1, hfu =>
      conv_lhs => unfold collectProps
      simp only [FDT_TAGSIZE]
      rw [readToken_prop F.data off _ hPB]
      simp only []
      have hd4 := drop_be32_step F.data off _ _ hPB
      have hd8 := drop_be32_step F.data (off + 4) _ _ hd4
      have hd12 := drop_be32_step F.data (off + 8) _ _ hd8
      rw [readU32_of_drop F.data (off + 4) _ _ hd4 hval]
      have h8 : off + 2 * 4 = off + 4 + 4 := by omega
      rw [h8, readU32_of_drop F.data (off + 4 + 4) _ _ hd8 hoff]
      simp only []
      rw [hstr]
      simp only []
      have h12 : off + 3 * 4 = off + 8 + 4 := by omega
      have hvalue : F.data.drop (off + 8 + 4) = p.value ++
          (List.replicate (alignTag p.value.length - p.value.length) 0 ++
            (propsBytes sm ps ++ rest)) := hd12
      have hrlen : (p.value ++ (List.replicate
          (alignTag p.value.length - p.value.length) 0 ++ (propsBytes sm ps ++ rest))).length =
          p.value.length + (alignTag p.value.length - p.value.length) +
          ((propsBytes sm ps).length + rest.length) := by
        simp [List.length_append]
        omega
      have hbound : off + 3 * 4 + p.value.length ≤ F.data.length := by
        rw [h12]
        refine add_le_length_of_drop F.data (off + 8 + 4) p.value.length _ hvalue ?_ ?_
        · simp [List.length_append]
        · obtain ⟨w, hw, r2, hr2⟩ := hstop
          rw [hrlen, hr2]
          have : (be32 w).length = 4 := rfl
          simp [List.length_append]
          omega
      rw [if_pos hbound]
      have htake : (F.data.drop (off + 3 * 4)).take p.value.length = p.value := by
        rw [h12, hvalue]
        exact List.take_left p.value _
      rw [htake]
      have hnext : alignTag (off + 3 * 4 + p.value.length) = off + (propBytes sm p).length := by
        rw [propBytes_length]
        have h1 : off + 3 * 4 + p.value.length = (off + 12) + p.value.length := by omega
        rw [h1, alignTag_add (off + 12) p.value.length (by omega)]
        omega
      rw [hnext]
      have hdropNext : F.data.drop (off + (propBytes sm p).length) =
          propsBytes sm ps ++ rest := by
        have h3 := drop_add_of_drop F.data off (propBytes sm p).length _ hdrop
        rw [h3, drop_append_len]
      rw [ih (off + (propBytes sm p).length) rest f hdropNext
        (by have := propBytes_mod sm p; omega)
        (fun q hq => hp q (List.mem_cons_of_mem p hq)) hstop
        (by simp only [List.length_cons] at hfu; omega)]
      rfl

theorem propsBytes_len_ge (m : StringMap) (ps : List DeviceTreeProperty) :
    12 * ps.length ≤ (propsBytes m ps).length := by
  induction ps with
  | nil => simp [propsBytes]
  | cons p ps ih =>
    show 12 * (p :: ps).length ≤ (propBytes m p ++ propsBytes m ps).length
    rw [List.length_append, propBytes_length]
    simp only [List.length_cons]
    omega

theorem tokNode_ge : ∀ n : DeviceTreeNode, 2 ≤ tokNode n
  | .mk name props children => by unfold tokNode; omega

theorem tokNodes_ge (cs : List DeviceTreeNode) : 2 * cs.length ≤ tokNodes cs := by
  induction cs with
  | nil => simp [tokNodes]
  | cons c cs ih =>
    unfold tokNodes
    simp only [List.length_cons]
    have := tokNode_ge c
    omega

mutual

theorem tokNode_le (m : StringMap) : ∀ n : DeviceTreeNode,
    4 * tokNode n ≤ (nodeBytes m n).length
  | .mk name props children => by
    unfold tokNode nodeBytes
    simp only [List.length_append]
    rw [nodeHeadBytes_length]
    have hal : 4 ≤ alignTag (name.length + 1) := by
      have h1 := alignTag_ge (name.length + 1)
      have h2 := alignTag_mod (name.length + 1)
      omega
    have h2 := propsBytes_len_ge m props
    have h3 := tokNodes_le m children
    have h4 : (be32 FDT_END_NODE).length = 4 := rfl
    omega

theorem tokNodes_le (m : StringMap) : ∀ cs : List DeviceTreeNode,
    4 * tokNodes cs ≤ (nodesBytes m cs).length
  | [] => by exact Nat.le_refl 0
  | c :: cs => by
    unfold tokNodes nodesBytes
    rw [List.length_append]
    have h1 := tokNode_le m c
    have h2 := tokNodes_le m cs
    omega

end

theorem nodeBytes_begin (sm : StringMap) : ∀ (n : DeviceTreeNode) (rest : List Nat),
    ∃ X, nodeBytes sm n ++ rest = be32 FDT_BEGIN_NODE ++ X
  | .mk name props children, rest => by
    rw [nodeBytes_decomp]
    refine ⟨name ++ 0 ::
      (List.replicate (alignTag (name.length + 1) - (name.length + 1)) 0 ++
        (propsBytes sm props ++ (nodesBytes sm children ++
          (be32 FDT_END_NODE ++ rest)))), ?_⟩
    unfold nodeHeadBytes
    simp [List.append_assoc]

theorem nodesBytes_stop (sm : StringMap) (cs : List DeviceTreeNode) (r2 : List Nat) :
    ∃ w, (w = FDT_BEGIN_NODE ∨ w = FDT_END_NODE) ∧
      ∃ r, nodesBytes sm cs ++ (be32 FDT_END_NODE ++ r2) = be32 w ++ r := by
  cases cs with
  | nil =>
    refine ⟨FDT_END_NODE, Or.inr rfl, r2, ?_⟩
    rfl
  | cons c cs =>
    obtain ⟨X, hX⟩ := nodeBytes_begin sm c (nodesBytes sm cs ++ (be32 FDT_END_NODE ++ r2))
    refine ⟨FDT_BEGIN_NODE, Or.inl rfl, X, ?_⟩
    have hns : nodesBytes sm (c :: cs) = nodeBytes sm c ++ nodesBytes sm cs := rfl
    rw [hns, List.append_assoc, hX]

theorem collectChildOffsets_props (D : List Nat) (sm : StringMap) :
    ∀ (ps : List DeviceTreeProperty) (off : Nat) (rest : List Nat) (m : Nat),
    D.drop off = propsBytes sm ps ++ rest → off % 4 = 0 →
    (∀ p ∈ ps, p.value.length < 2 ^ 32) →
    collectChildOffsets D off (ps.length + m) =
      collectChildOffsets D (off + (propsBytes sm ps).length) m := by
  intro ps
  induction ps with
  | nil =>
    intro off rest m h ha hv
    show collectChildOffsets D off (0 + m) = collectChildOffsets D (off + 0) m
    rw [Nat.zero_add, Nat.add_zero off]
  | cons p ps ih =>
    intro off rest m h ha hv
    have hps : propsBytes sm (p :: ps) = propBytes sm p ++ propsBytes sm ps := rfl
    rw [hps, List.append_assoc] at h
    have hprop : D.drop off = be32 FDT_PROP ++ (be32 p.value.length ++
        (be32 (sm.getOffset p.name) ++ (p.value ++
        (List.replicate (alignTag p.value.length - p.value.length) 0 ++
          (propsBytes sm ps ++ rest))))) := by
      rw [h, propBytes_decomp]
    have hfuel : (p :: ps).length + m = (ps.length + m) + 1 := by
      simp only [List.length_cons]; omega
    rw [hfuel]
    conv_lhs => unfold collectChildOffsets
    simp only [FDT_TAGSIZE]
    rw [readToken_prop D off _ hprop]
    simp only []
    unfold nextPropertyOffset
    have hlen : D.drop (off + 4) = be32 p.value.length ++
        (be32 (sm.getOffset p.name) ++ (p.value ++
        (List.replicate (alignTag p.value.length - p.value.length) 0 ++
          (propsBytes sm ps ++ rest)))) := drop_be32_step D off _ _ hprop
    rw [readU32_of_drop D (off + 4) _ _ hlen (hv p (List.mem_cons_self p ps))]
    simp only []
    have hnext : alignTag (off + 4 + 8 + p.value.length) =
        off + (propBytes sm p).length := by
      rw [propBytes_length]
      have h1 : off + 4 + 8 + p.value.length = (off + 12) + p.value.length := by omega
      rw [h1, alignTag_add (off + 12) p.value.length (by omega)]
      omega
    rw [hnext]
    have hdrop2 : D.drop (off + (propBytes sm p).length) = propsBytes sm ps ++ rest := by
      have h3 := drop_add_of_drop D off (propBytes sm p).length _ h
      rw [h3, drop_append_len]
    rw [ih (off + (propBytes sm p).length) rest m hdrop2
      (by have := propBytes_mod sm p; omega)
      (fun q hq => hv q (List.mem_cons_of_mem p hq))]
    rw [hps, List.length_append, ← Nat.add_assoc]

theorem collectChildOffsets_children (D : List Nat) (sm : StringMap) :
    ∀ (cs : List DeviceTreeNode) (off : Nat) (r2 : List Nat) (m : Nat),
    D.drop off = nodesBytes sm cs ++ (be32 FDT_END_NODE ++ r2) → off % 4 = 0 →
    nodesOk cs = true →
    collectChildOffsets D off (cs.length + (m + 1)) = .ok (childOffs sm off cs) := by
  intro cs
  induction cs with
  | nil =>
    intro off r2 m hdrop ha hok
    show collectChildOffsets D off (0 + (m + 1)) = .ok (childOffs sm off [])
    rw [Nat.zero_add]
    conv_lhs => unfold collectChildOffsets
    have hdrop2 : D.drop off = be32 FDT_END_NODE ++ r2 := by rw [hdrop]; rfl
    rw [readToken_end_node D off _ hdrop2]
    rfl
  | cons c cs ih =>
    intro off r2 m hdrop ha hok
    obtain ⟨hc, hcs⟩ := nodesOk_unfold c cs hok
    have hns : nodesBytes sm (c :: cs) = nodeBytes sm c ++ nodesBytes sm cs := rfl
    rw [hns, List.append_assoc] at hdrop
    have hfuel : (c :: cs).length + (m + 1) = (cs.length + (m + 1)) + 1 := by
      simp only [List.length_cons]; omega
    rw [hfuel]
    conv_lhs => unfold collectChildOffsets
    obtain ⟨X, hX⟩ := nodeBytes_begin sm c (nodesBytes sm cs ++ (be32 FDT_END_NODE ++ r2))
    rw [readToken_begin D off X (by rw [hdrop, hX])]
    simp only []
    unfold nextSiblingOffset
    have htokle : 4 * tokNode c ≤ (nodeBytes sm c).length := tokNode_le sm c
    have hlen := length_sub_of_drop D off _ hdrop
    rw [List.length_append] at hlen
    have htok2 : tokNode c ≤ D.length := by omega
    have hD : D.length = tokNode c + (D.length - tokNode c) := by omega
    rw [hD]
    rw [skipSubtree_node_root D sm c off _ (D.length - tokNode c) hdrop ha hc]
    simp only []
    have hdrop3 : D.drop (off + (nodeBytes sm c).length) =
        nodesBytes sm cs ++ (be32 FDT_END_NODE ++ r2) := by
      have h3 := drop_add_of_drop D off (nodeBytes sm c).length _ hdrop
      rw [h3, drop_append_len]
    rw [ih (off + (nodeBytes sm c).length) r2 m hdrop3
      (by have := nodeBytes_mod sm c; omega) hcs]
    rfl

theorem map_tryFromProp (ps : List DeviceTreeProperty) :
    (ps.map (fun p => (⟨p.name, p.value⟩ : FdtProperty))).map tryFromProp = ps := by
  induction ps with
  | nil => rfl
  | cons q qs ih =>
    simp only [List.map_cons]
    rw [ih]
    rfl

mutual

theorem parseNode_spec (F : Fdt) (sm : StringMap) :
    ∀ (n : DeviceTreeNode) (off : Nat) (rest : List Nat) (fuel : Nat),
    F.data.drop off = nodeBytes sm n ++ rest → off % 4 = 0 → nodeOk n = true →
    (∀ nm ∈ dfsPropNames n, sm.getOffset nm < 2 ^ 32 ∧
      F.string (sm.getOffset nm) = .ok nm) →
    heightN n ≤ fuel →
    parseNode F off fuel = .ok n
  | .mk name props children, off, rest, fuel, hdrop, ha, hok, hstr, hfuel => by
    obtain ⟨hname, hprops, hchl⟩ := nodeOk_unfold name props children hok
    obtain ⟨hnul, hutf⟩ := nameOk_unfold name hname
    have h1 : 1 ≤ fuel := by
      have h2 : heightN (.mk name props children) = heightNs children + 1 := rfl
      omega
    obtain ⟨f, rfl⟩ : ∃ f, fuel = f + 1 := ⟨fuel - 1, by omega⟩
    rw [nodeBytes_decomp] at hdrop
    conv_lhs => unfold parseNode
    simp only [FDT_TAGSIZE]
    have hdropName := drop_nodeHead F.data off name _ hdrop
    rw [stringAtOffset_of_drop F.data (off + 4) name _ hdropName hnul hutf]
    simp only []
    have hbody : alignTag (off + 4 + name.length + 1) =
        off + (nodeHeadBytes name).length := by
      rw [nodeHeadBytes_length]
      have h3 : off + 4 + name.length + 1 = (off + 4) + (name.length + 1) := by omega
      rw [h3, alignTag_add (off + 4) (name.length + 1) (by omega)]
      omega
    have hbodyOff : nodeBodyOffset F.data off =
        .ok (off + (nodeHeadBytes name).length) := by
      unfold nodeBodyOffset
      simp only [FDT_TAGSIZE]
      rw [findStringEnd_of_drop F.data (off + 4) name _ hdropName hnul]
      simp only []
      rw [hbody]
    rw [hbodyOff]
    simp only []
    have hdropBody : F.data.drop (off + (nodeHeadBytes name).length) =
        propsBytes sm props ++ (nodesBytes sm children ++
          (be32 FDT_END_NODE ++ rest)) := by
      have h3 := drop_add_of_drop F.data off (nodeHeadBytes name).length _ hdrop
      rw [h3, drop_append_len]
    have hbodyMod : (off + (nodeHeadBytes name).length) % 4 = 0 := by
      have := nodeHeadBytes_mod name
      omega
    have hlenAll := length_sub_of_drop F.data off _ hdrop
    simp only [List.length_append] at hlenAll
    have hhd : 4 ≤ (nodeHeadBytes name).length := by
      rw [nodeHeadBytes_length]; omega
    have hple := propsBytes_len_ge sm props
    have hnle := tokNodes_le sm children
    have htge := tokNodes_ge children
    have hpfits : props.length ≤ F.data.length := by omega
    have hcfits : props.length + children.length ≤ F.data.length := by omega
    rw [collectProps_spec F sm props (off + (nodeHeadBytes name).length) _
      (F.data.length + 1) hdropBody hbodyMod
      (fun p hp => ⟨(hprops p hp).2,
        (hstr p.name (List.mem_append_left _ (List.mem_map_of_mem _ hp))).1,
        (hstr p.name (List.mem_append_left _ (List.mem_map_of_mem _ hp))).2⟩)
      (nodesBytes_stop sm children rest) (by omega)]
    simp only []
    have hfc : F.data.length + 1 = props.length + (children.length +
        ((F.data.length - props.length - children.length) + 1)) := by omega
    rw [hfc]
    rw [collectChildOffsets_props F.data sm props (off + (nodeHeadBytes name).length) _
      (children.length + ((F.data.length - props.length - children.length) + 1))
      hdropBody hbodyMod (fun p hp => (hprops p hp).2)]
    have hdropKids : F.data.drop
        (off + (nodeHeadBytes name).length + (propsBytes sm props).length) =
        nodesBytes sm children ++ (be32 FDT_END_NODE ++ rest) := by
      have h3 := drop_add_of_drop F.data (off + (nodeHeadBytes name).length)
        (propsBytes sm props).length _ hdropBody
      rw [h3, drop_append_len]
    have hkidsMod : (off + (nodeHeadBytes name).length +
        (propsBytes sm props).length) % 4 = 0 := by
      have := propsBytes_mod sm props
      omega
    rw [collectChildOffsets_children F.data sm children _ rest
      (F.data.length - props.length - children.length) hdropKids hkidsMod hchl]
    simp only []
    rw [parseNodes_spec F sm children
      (off + (nodeHeadBytes name).length + (propsBytes sm props).length) _ f
      hdropKids hkidsMod hchl
      (fun nm h => hstr nm (List.mem_append_right _ h))
      (by have h2 : heightN (.mk name props children) = heightNs children + 1 := rfl
          omega)]
    simp only []
    rw [map_tryFromProp]

theorem parseNodes_spec (F : Fdt) (sm : StringMap) :
    ∀ (cs : List DeviceTreeNode) (off : Nat) (rest : List Nat) (fuel : Nat),
    F.data.drop off = nodesBytes sm cs ++ rest → off % 4 = 0 → nodesOk cs = true →
    (∀ nm ∈ dfsPropNamesList cs, sm.getOffset nm < 2 ^ 32 ∧
      F.string (sm.getOffset nm) = .ok nm) →
    heightNs cs ≤ fuel →
    parseNodes F (childOffs sm off cs) fuel = .ok cs
  | [], off, rest, fuel, _, _, _, _, _ => by
    show parseNodes F [] fuel = .ok []
    unfold parseNodes
    rfl
  | c :: cs, off, rest, fuel, hdrop, ha, hok, hstr, hfuel => by
    obtain ⟨hc, hcs⟩ := nodesOk_unfold c cs hok
    have hns : nodesBytes sm (c :: cs) = nodeBytes sm c ++ nodesBytes sm cs := rfl
    rw [hns, List.append_assoc] at hdrop
    show parseNodes F (off :: childOffs sm (off + (nodeBytes sm c).length) cs) fuel =
      .ok (c :: cs)
    conv_lhs => unfold parseNodes
    rw [parseNode_spec F sm c off _ fuel hdrop ha hc
      (fun nm h => hstr nm (List.mem_append_left _ h))
      (by have h1 : heightNs (c :: cs) = max (heightN c) (heightNs cs) := rfl
          have h2 := Nat.le_max_left (heightN c) (heightNs cs)
          omega)]
    simp only []
    have hdrop2 : F.data.drop (off + (nodeBytes sm c).length) =
        nodesBytes sm cs ++ rest := by
      have h3 := drop_add_of_drop F.data off (nodeBytes sm c).length _ hdrop
      rw [h3, drop_append_len]
    rw [parseNodes_spec F sm cs (off + (nodeBytes sm c).length) rest fuel hdrop2
      (by have := nodeBytes_mod sm c; omega) hcs
      (fun nm h => hstr nm (List.mem_append_right _ h))
      (by have h1 : heightNs (c :: cs) = max (heightN c) (heightNs cs) := rfl
          have h2 := Nat.le_max_right (heightN c) (heightNs cs)
          omega)]

end

theorem drop_be64_step (D : List Nat) (off w : Nat) (X : List Nat)
    (h : D.drop off = be64 w ++ X) : D.drop (off + 8) = X := by
  rw [drop_add_of_drop D off 8 _ h,
    show (8 : Nat) = (be64 w).length from rfl, drop_append_len]

theorem readU64_of_drop (D : List Nat) (off w : Nat) (X : List Nat)
    (h : D.drop off = be64 w ++ X) (hw : w < 2 ^ 64) :
    readU64 D off = some w := by
  rw [readU64_congr D off _ h, readU64_be64_lt w X hw]

theorem writeMemoryReservations_eq (dtb : List Nat) (rs : List MemoryReservation) :
    writeMemoryReservations dtb rs = dtb ++ memrsvBytes rs := by
  unfold writeMemoryReservations memrsvBytes
  simp [List.append_assoc]

theorem memrsvBytes_length (rs : List MemoryReservation) :
    (memrsvBytes rs).length = 16 * rs.length + 16 := by
  induction rs with
  | nil => rfl
  | cons r rs ih =>
    unfold memrsvBytes at ih ⊢
    simp only [List.flatMap_cons, List.append_assoc, List.length_append] at ih ⊢
    simp only [List.length_cons]
    have h8 : (be64 r.address).length = 8 := rfl
    have h8b : (be64 r.size).length = 8 := rfl
    omega

theorem memsOk_unfold (r : MemoryReservation) (rs : List MemoryReservation)
    (h : memsOk (r :: rs) = true) :
    ¬(r.address = 0 ∧ r.size = 0) ∧ r.address < 2 ^ 64 ∧ r.size < 2 ^ 64 ∧
    memsOk rs = true := by
  unfold memsOk at h ⊢
  simp only [List.all_cons, Bool.and_eq_true, decide_eq_true_eq] at h
  exact ⟨h.1.1.1, h.1.1.2, h.1.2, h.2⟩

theorem memResLoop_spec (D : List Nat) :
    ∀ (rs : List MemoryReservation) (off : Nat) (rest : List Nat) (m : Nat),
    D.drop off = memrsvBytes rs ++ rest →
    memsOk rs = true →
    memResLoop D (off + 16 * rs.length + 16) off (rs.length + (m + 1)) = .ok rs := by
  intro rs
  induction rs with
  | nil =>
    intro off rest m hdrop hok
    have hdrop0 : D.drop off = be64 0 ++ (be64 0 ++ rest) := by
      rw [hdrop]
      unfold memrsvBytes
      simp [List.append_assoc]
    show memResLoop D (off + 16 * 0 + 16) off (0 + (m + 1)) = .ok []
    simp only [Nat.mul_zero, Nat.add_zero, Nat.zero_add]
    conv_lhs => unfold memResLoop
    rw [if_neg (by omega)]
    rw [readU64_of_drop D off 0 _ hdrop0 (by decide)]
    have hdrop8 := drop_be64_step D off _ _ hdrop0
    rw [readU64_of_drop D (off + 8) 0 _ hdrop8 (by decide)]
    simp
  | cons r rs ih =>
    intro off rest m hdrop hok
    obtain ⟨hnz, ha64, hs64, hrs⟩ := memsOk_unfold r rs hok
    have hmb : memrsvBytes (r :: rs) ++ rest =
        be64 r.address ++ (be64 r.size ++ (memrsvBytes rs ++ rest)) := by
      unfold memrsvBytes
      simp [List.append_assoc]
    rw [hmb] at hdrop
    show memResLoop D (off + 16 * (r :: rs).length + 16) off
      ((r :: rs).length + (m + 1)) = .ok (r :: rs)
    have hlen1 : (r :: rs).length = rs.length + 1 := rfl
    rw [hlen1]
    have hfuel : rs.length + 1 + (m + 1) = (rs.length + (m + 1)) + 1 := by omega
    rw [hfuel]
    conv_lhs => unfold memResLoop
    rw [if_neg (by omega)]
    rw [readU64_of_drop D off r.address _ hdrop ha64]
    have hdrop8 := drop_be64_step D off _ _ hdrop
    rw [readU64_of_drop D (off + 8) r.size _ hdrop8 hs64]
    simp only []
    rw [if_neg hnz]
    have hdrop16 : D.drop (off + 16) = memrsvBytes rs ++ rest := by
      have h3 := drop_be64_step D (off + 8) _ _ hdrop8
      rw [show off + 8 + 8 = off + 16 from by omega] at h3
      exact h3
    have harith : off + 16 * (rs.length + 1) + 16 = off + 16 + 16 * rs.length + 16 := by
      omega
    rw [harith]
    rw [ih (off + 16) rest m hdrop16 hrs]

mutual

theorem heightN_le_tok : ∀ n : DeviceTreeNode, heightN n ≤ tokNode n
  | .mk name props children => by
    have h1 := heightNs_le_toks children
    show heightNs children + 1 ≤ 1 + props.length + tokNodes children + 1
    omega

theorem heightNs_le_toks : ∀ cs : List DeviceTreeNode, heightNs cs ≤ tokNodes cs
  | [] => Nat.le_refl 0
  | c :: cs => by
    have h1 := heightN_le_tok c
    have h2 := heightNs_le_toks cs
    show max (heightN c) (heightNs cs) ≤ tokNode c + tokNodes cs
    omega

end

mutual

theorem dfsPropNames_ok : ∀ n : DeviceTreeNode, nodeOk n = true →
    ∀ nm ∈ dfsPropNames n, nameOk nm = true
  | .mk name props children, hok, nm, hmem => by
    obtain ⟨hname, hprops, hchl⟩ := nodeOk_unfold name props children hok
    have hd : dfsPropNames (.mk name props children) =
        props.map (fun p => p.name) ++ dfsPropNamesList children := rfl
    rw [hd] at hmem
    rcases List.mem_append.mp hmem with hp | hc
    · obtain ⟨p, hpmem, hpname⟩ := List.mem_map.mp hp
      subst hpname
      exact (hprops p hpmem).1
    · exact dfsPropNamesList_ok children hchl nm hc

theorem dfsPropNamesList_ok : ∀ cs : List DeviceTreeNode, nodesOk cs = true →
    ∀ nm ∈ dfsPropNamesList cs, nameOk nm = true
  | [], _, nm, hmem => by
    have hd : dfsPropNamesList ([] : List DeviceTreeNode) = [] := rfl
    rw [hd] at hmem
    exact absurd hmem (by simp)
  | c :: cs, hok, nm, hmem => by
    obtain ⟨hc, hcs⟩ := nodesOk_unfold c cs hok
    have hd : dfsPropNamesList (c :: cs) = dfsPropNames c ++ dfsPropNamesList cs := rfl
    rw [hd] at hmem
    rcases List.mem_append.mp hmem with h1 | h2
    · exact dfsPropNames_ok c hc nm h1
    · exact dfsPropNamesList_ok cs hcs nm h2

end

theorem lookup_find (m : StringMap) (k : List Nat) (o : Nat)
    (h : m.lookup k = some o) :
    ∃ e, m.entries.find? (fun x => x.1 = k) = some e ∧ e.2 = o := by
  unfold StringMap.lookup at h
  match hf : m.entries.find? (fun x => x.1 = k) with
  | none => rw [hf] at h; exact absurd h (by simp)
  | some e =>
    rw [hf] at h
    exact ⟨e, hf, Option.some.inj h⟩

theorem string_eval (f : Fdt) (nameoff : Nat) (name tail : List Nat)
    (h1 : ¬ f.size_dt_strings ≤ nameoff)
    (h2 : (f.data.drop (f.off_dt_strings + nameoff)).take
      (f.size_dt_strings - nameoff) = name ++ 0 :: tail)
    (h3 : ∀ b ∈ name, b ≠ 0) (h4 : validUtf8 name = true) :
    f.string nameoff = .ok name := by
  unfold Fdt.string
  rw [if_neg h1]
  rw [h2]
  show (match findNul (name ++ 0 :: tail) with
    | none => Except.error (FdtError.new FdtErrorKind.InvalidString
        (f.off_dt_strings + nameoff))
    | some i =>
      if validUtf8 ((name ++ 0 :: tail).take i) = true then
        Except.ok ((name ++ 0 :: tail).take i)
      else Except.error (FdtError.new FdtErrorKind.InvalidString
        (f.off_dt_strings + nameoff))) = Except.ok name
  rw [findNul_append name tail h3]
  simp only []
  rw [List.take_left]
  rw [h4]
  rfl

theorem headerField_decode (H : FdtHeaderV) (tail : List Nat)
    (h1 : H.magic < 2 ^ 32) (h2 : H.totalsize < 2 ^ 32) (h3 : H.off_dt_struct < 2 ^ 32) (h4 : H.off_dt_strings < 2 ^ 32) (h5 : H.off_mem_rsvmap < 2 ^ 32) (h6 : H.version < 2 ^ 32) (h7 : H.last_comp_version < 2 ^ 32) (h8 : H.boot_cpuid_phys < 2 ^ 32) (h9 : H.size_dt_strings < 2 ^ 32) (h10 : H.size_dt_struct < 2 ^ 32) :
    headerField (headerBytes H ++ tail) 0 = H.magic ∧
    headerField (headerBytes H ++ tail) 4 = H.totalsize ∧
    headerField (headerBytes H ++ tail) 8 = H.off_dt_struct ∧
    headerField (headerBytes H ++ tail) 12 = H.off_dt_strings ∧
    headerField (headerBytes H ++ tail) 16 = H.off_mem_rsvmap ∧
    headerField (headerBytes H ++ tail) 20 = H.version ∧
    headerField (headerBytes H ++ tail) 24 = H.last_comp_version ∧
    headerField (headerBytes H ++ tail) 28 = H.boot_cpuid_phys ∧
    headerField (headerBytes H ++ tail) 32 = H.size_dt_strings ∧
    headerField (headerBytes H ++ tail) 36 = H.size_dt_struct := by
  have hd0 : (headerBytes H ++ tail).drop 0 = be32 H.magic ++ (be32 H.totalsize ++ (be32 H.off_dt_struct ++ (be32 H.off_dt_strings ++ (be32 H.off_mem_rsvmap ++ (be32 H.version ++ (be32 H.last_comp_version ++ (be32 H.boot_cpuid_phys ++ (be32 H.size_dt_strings ++ (be32 H.size_dt_struct ++ (tail)))))))))) := by
    rw [List.drop_zero]
    unfold headerBytes
    simp [List.append_assoc]
  have hd4 : (headerBytes H ++ tail).drop 4 = be32 H.totalsize ++ (be32 H.off_dt_struct ++ (be32 H.off_dt_strings ++ (be32 H.off_mem_rsvmap ++ (be32 H.version ++ (be32 H.last_comp_version ++ (be32 H.boot_cpuid_phys ++ (be32 H.size_dt_strings ++ (be32 H.size_dt_struct ++ (tail))))))))) := by
    have h := drop_be32_step _ 0 _ _ hd0
    simpa using h
  have hd8 : (headerBytes H ++ tail).drop 8 = be32 H.off_dt_struct ++ (be32 H.off_dt_strings ++ (be32 H.off_mem_rsvmap ++ (be32 H.version ++ (be32 H.last_comp_version ++ (be32 H.boot_cpuid_phys ++ (be32 H.size_dt_strings ++ (be32 H.size_dt_struct ++ (tail)))))))) := by
    have h := drop_be32_step _ 4 _ _ hd4
    simpa using h
  have hd12 : (headerBytes H ++ tail).drop 12 = be32 H.off_dt_strings ++ (be32 H.off_mem_rsvmap ++ (be32 H.version ++ (be32 H.last_comp_version ++ (be32 H.boot_cpuid_phys ++ (be32 H.size_dt_strings ++ (be32 H.size_dt_struct ++ (tail))))))) := by
    have h := drop_be32_step _ 8 _ _ hd8
    simpa using h
  have hd16 : (headerBytes H ++ tail).drop 16 = be32 H.off_mem_rsvmap ++ (be32 H.version ++ (be32 H.last_comp_version ++ (be32 H.boot_cpuid_phys ++ (be32 H.size_dt_strings ++ (be32 H.size_dt_struct ++ (tail)))))) := by
    have h := drop_be32_step _ 12 _ _ hd12
    simpa using h
  have hd20 : (headerBytes H ++ tail).drop 20 = be32 H.version ++ (be32 H.last_comp_version ++ (be32 H.boot_cpuid_phys ++ (be32 H.size_dt_strings ++ (be32 H.size_dt_struct ++ (tail))))) := by
    have h := drop_be32_step _ 16 _ _ hd16
    simpa using h
  have hd24 : (headerBytes H ++ tail).drop 24 = be32 H.last_comp_version ++ (be32 H.boot_cpuid_phys ++ (be32 H.size_dt_strings ++ (be32 H.size_dt_struct ++ (tail)))) := by
    have h := drop_be32_step _ 20 _ _ hd20
    simpa using h
  have hd28 : (headerBytes H ++ tail).drop 28 = be32 H.boot_cpuid_phys ++ (be32 H.size_dt_strings ++ (be32 H.size_dt_struct ++ (tail))) := by
    have h := drop_be32_step _ 24 _ _ hd24
    simpa using h
  have hd32 : (headerBytes H ++ tail).drop 32 = be32 H.size_dt_strings ++ (be32 H.size_dt_struct ++ (tail)) := by
    have h := drop_be32_step _ 28 _ _ hd28
    simpa using h
  have hd36 : (headerBytes H ++ tail).drop 36 = be32 H.size_dt_struct ++ (tail) := by
    have h := drop_be32_step _ 32 _ _ hd32
    simpa using h
  refine ⟨?_, ?_, ?_, ?_, ?_, ?_, ?_, ?_, ?_, ?_⟩
  · unfold headerField
    rw [readU32_of_drop _ 0 _ _ hd0 h1]
    rfl
  · unfold headerField
    rw [readU32_of_drop _ 4 _ _ hd4 h2]
    rfl
  · unfold headerField
    rw [readU32_of_drop _ 8 _ _ hd8 h3]
    rfl
  · unfold headerField
    rw [readU32_of_drop _ 12 _ _ hd12 h4]
    rfl
  · unfold headerField
    rw [readU32_of_drop _ 16 _ _ hd16 h5]
    rfl
  · unfold headerField
    rw [readU32_of_drop _ 20 _ _ hd20 h6]
    rfl
  · unfold headerField
    rw [readU32_of_drop _ 24 _ _ hd24 h7]
    rfl
  · unfold headerField
    rw [readU32_of_drop _ 28 _ _ hd28 h8]
    rfl
  · unfold headerField
    rw [readU32_of_drop _ 32 _ _ hd32 h9]
    rfl
  · unfold headerField
    rw [readU32_of_drop _ 36 _ _ hd36 h10]
    rfl

theorem headerBytes_length (H : FdtHeaderV) : (headerBytes H).length = 40 := rfl

theorem genH_sm (t : DeviceTree) :
    t.generateHeader.1 = (calculateNodeSize StringMap.new t.root).1 := rfl

theorem genH_magic (t : DeviceTree) : t.generateHeader.2.magic = FDT_MAGIC := rfl

theorem genH_version (t : DeviceTree) : t.generateHeader.2.version = 17 := rfl

theorem genH_lcv (t : DeviceTree) : t.generateHeader.2.last_comp_version = 16 := rfl

theorem genH_boot (t : DeviceTree) : t.generateHeader.2.boot_cpuid_phys = 0 := rfl

theorem genH_offmem (t : DeviceTree) : t.generateHeader.2.off_mem_rsvmap = 40 := rfl

theorem genH_offstruct (t : DeviceTree) : t.generateHeader.2.off_dt_struct =
    40 + (t.memory_reservations.length + 1) * 16 := rfl

theorem genH_offstrings (t : DeviceTree) : t.generateHeader.2.off_dt_strings =
    40 + (t.memory_reservations.length + 1) * 16 +
      ((calculateNodeSize StringMap.new t.root).2 + FDT_TAGSIZE) := rfl

theorem genH_total (t : DeviceTree) : t.generateHeader.2.totalsize =
    40 + (t.memory_reservations.length + 1) * 16 +
      ((calculateNodeSize StringMap.new t.root).2 + FDT_TAGSIZE) +
      (calculateNodeSize StringMap.new t.root).1.next_offset := rfl

theorem genH_size_struct (t : DeviceTree) : t.generateHeader.2.size_dt_struct =
    (calculateNodeSize StringMap.new t.root).2 + FDT_TAGSIZE := by
  show 40 + (t.memory_reservations.length + 1) * 16 +
      ((calculateNodeSize StringMap.new t.root).2 + FDT_TAGSIZE) -
      (40 + (t.memory_reservations.length + 1) * 16) =
    (calculateNodeSize StringMap.new t.root).2 + FDT_TAGSIZE
  omega

theorem genH_size_strings (t : DeviceTree) : t.generateHeader.2.size_dt_strings =
    (calculateNodeSize StringMap.new t.root).1.next_offset := by
  show 40 + (t.memory_reservations.length + 1) * 16 +
      ((calculateNodeSize StringMap.new t.root).2 + FDT_TAGSIZE) +
      (calculateNodeSize StringMap.new t.root).1.next_offset -
      (40 + (t.memory_reservations.length + 1) * 16 +
        ((calculateNodeSize StringMap.new t.root).2 + FDT_TAGSIZE)) =
    (calculateNodeSize StringMap.new t.root).1.next_offset
  omega

theorem smOk_gen (t : DeviceTree) : smOk t.generateHeader.1 := by
  rw [genH_sm]
  exact smOk_calculateNodeSize t.root StringMap.new smOk_new

theorem toDtb_eq (t : DeviceTree) :
    t.toDtb = headerBytes t.generateHeader.2 ++
      (memrsvBytes t.memory_reservations ++
        (nodeBytes t.generateHeader.1 t.root ++
          (be32 FDT_END ++ esBlock t.generateHeader.1.entries))) := by
  show t.generateHeader.1.writeStringBlock
      (writeRoot (writeMemoryReservations (headerBytes t.generateHeader.2)
        t.memory_reservations) t.generateHeader.1 t.root) = _
  rw [writeMemoryReservations_eq]
  rw [writeRoot_eq _ _ _ (by
    simp only [List.length_append, headerBytes_length, memrsvBytes_length]
    omega)]
  rw [writeStringBlock_eq _ _ (smOk_gen t)]
  simp [List.append_assoc]

theorem toDtb_length (t : DeviceTree) : t.toDtb.length = t.generateHeader.2.totalsize := by
  rw [toDtb_eq]
  simp only [List.length_append, headerBytes_length, memrsvBytes_length]
  rw [genH_total]
  have h1 : (calculateNodeSize StringMap.new t.root).2 =
      (nodeBytes t.generateHeader.1 t.root).length :=
    calculateNodeSize_snd StringMap.new t.generateHeader.1 t.root
  have h3 : t.generateHeader.1.next_offset =
      (esBlock t.generateHeader.1.entries).length := (smOk_gen t).2
  rw [← genH_sm]
  have h4 : (be32 FDT_END).length = 4 := rfl
  have h5 : FDT_TAGSIZE = 4 := rfl
  omega

theorem toDtb_header (t : DeviceTree) (hsz : t.generateHeader.2.totalsize < 2 ^ 32) :
    headerField t.toDtb 0 = t.generateHeader.2.magic ∧
    headerField t.toDtb 4 = t.generateHeader.2.totalsize ∧
    headerField t.toDtb 8 = t.generateHeader.2.off_dt_struct ∧
    headerField t.toDtb 12 = t.generateHeader.2.off_dt_strings ∧
    headerField t.toDtb 16 = t.generateHeader.2.off_mem_rsvmap ∧
    headerField t.toDtb 20 = t.generateHeader.2.version ∧
    headerField t.toDtb 24 = t.generateHeader.2.last_comp_version ∧
    headerField t.toDtb 28 = t.generateHeader.2.boot_cpuid_phys ∧
    headerField t.toDtb 32 = t.generateHeader.2.size_dt_strings ∧
    headerField t.toDtb 36 = t.generateHeader.2.size_dt_struct := by
  have htot := genH_total t
  have hT : FDT_TAGSIZE = 4 := rfl
  rw [toDtb_eq]
  exact headerField_decode t.generateHeader.2 _
    (by rw [genH_magic]; decide)
    hsz
    (by rw [genH_offstruct]; omega)
    (by rw [genH_offstrings]; omega)
    (by rw [genH_offmem]; omega)
    (by rw [genH_version]; decide)
    (by rw [genH_lcv]; decide)
    (by rw [genH_boot]; decide)
    (by rw [genH_size_strings]; omega)
    (by rw [genH_size_struct]; omega)

theorem toDtb_new (t : DeviceTree) (hsz : t.generateHeader.2.totalsize < 2 ^ 32) :
    Fdt.new t.toDtb = .ok (Fdt.mk t.toDtb) := by
  obtain ⟨f0, f1, f2, f3, f4, f5, f6, f7, f8, f9⟩ := toDtb_header t hsz
  have hlen := toDtb_length t
  have htot := genH_total t
  have hT : FDT_TAGSIZE = 4 := rfl
  have e0 : (Fdt.mk t.toDtb).magic = FDT_MAGIC := by
    show headerField t.toDtb 0 = FDT_MAGIC
    rw [f0, genH_magic]
  have e4 : (Fdt.mk t.toDtb).totalsize = t.generateHeader.2.totalsize := f1
  have e8 : (Fdt.mk t.toDtb).off_dt_struct =
      40 + (t.memory_reservations.length + 1) * 16 := by
    show headerField t.toDtb 8 = _
    rw [f2, genH_offstruct]
  have e12 : (Fdt.mk t.toDtb).off_dt_strings =
      40 + (t.memory_reservations.length + 1) * 16 +
        ((calculateNodeSize StringMap.new t.root).2 + FDT_TAGSIZE) := by
    show headerField t.toDtb 12 = _
    rw [f3, genH_offstrings]
  have e16 : (Fdt.mk t.toDtb).off_mem_rsvmap = 40 := by
    show headerField t.toDtb 16 = _
    rw [f4, genH_offmem]
  have e20 : (Fdt.mk t.toDtb).version = 17 := by
    show headerField t.toDtb 20 = _
    rw [f5, genH_version]
  have e24 : (Fdt.mk t.toDtb).last_comp_version = 16 := by
    show headerField t.toDtb 24 = _
    rw [f6, genH_lcv]
  have e32 : (Fdt.mk t.toDtb).size_dt_strings =
      (calculateNodeSize StringMap.new t.root).1.next_offset := by
    show headerField t.toDtb 32 = _
    rw [f8, genH_size_strings]
  have e36 : (Fdt.mk t.toDtb).size_dt_struct =
      (calculateNodeSize StringMap.new t.root).2 + FDT_TAGSIZE := by
    show headerField t.toDtb 36 = _
    rw [f9, genH_size_struct]
  have edl : (Fdt.mk t.toDtb).data.length = t.generateHeader.2.totalsize := by
    show t.toDtb.length = _
    exact hlen
  have hval : (Fdt.mk t.toDtb).validateHeader = .ok () := by
    unfold Fdt.validateHeader
    rw [if_neg (by rw [e16, e8]; omega)]
    rw [if_neg (by rw [e8, edl]; omega)]
    rw [if_neg (by rw [e12, edl]; omega)]
    rw [if_neg (by rw [e8, e36, edl]; omega)]
    rw [if_neg (by rw [e12, e32, edl]; omega)]
    rw [if_neg (by rw [e8, e36, e12]; omega)]
  unfold Fdt.new
  rw [if_neg (by rw [hlen]; omega)]
  rw [if_neg (fun h => h e0)]
  rw [if_neg (fun h => h ⟨by rw [e24]; decide, by rw [e20]; decide⟩)]
  rw [if_neg (fun h => h (by rw [e4, hlen]))]
  rw [hval]

theorem toDtb_drop_mem (t : DeviceTree) :
    t.toDtb.drop 40 = memrsvBytes t.memory_reservations ++
      (nodeBytes t.generateHeader.1 t.root ++
        (be32 FDT_END ++ esBlock t.generateHeader.1.entries)) := by
  rw [toDtb_eq]
  rw [show (40 : Nat) = (headerBytes t.generateHeader.2).length from
    (headerBytes_length _).symm]
  rw [drop_append_len]

theorem toDtb_drop_struct (t : DeviceTree) :
    t.toDtb.drop (40 + (t.memory_reservations.length + 1) * 16) =
      nodeBytes t.generateHeader.1 t.root ++
        (be32 FDT_END ++ esBlock t.generateHeader.1.entries) := by
  rw [toDtb_eq]
  have harith : 40 + (t.memory_reservations.length + 1) * 16 =
      (headerBytes t.generateHeader.2).length +
        (memrsvBytes t.memory_reservations).length := by
    rw [headerBytes_length, memrsvBytes_length]
    omega
  rw [harith, drop_append_add, drop_append_len]

theorem toDtb_drop_strings (t : DeviceTree) :
    t.toDtb.drop t.generateHeader.2.off_dt_strings =
      esBlock t.generateHeader.1.entries := by
  rw [genH_offstrings, toDtb_eq]
  have hT : FDT_TAGSIZE = 4 := rfl
  have h4 : (be32 FDT_END).length = 4 := rfl
  have harith : 40 + (t.memory_reservations.length + 1) * 16 +
      ((calculateNodeSize StringMap.new t.root).2 + FDT_TAGSIZE) =
      (headerBytes t.generateHeader.2).length +
        ((memrsvBytes t.memory_reservations).length +
          ((nodeBytes t.generateHeader.1 t.root).length + (be32 FDT_END).length)) := by
    rw [headerBytes_length, memrsvBytes_length,
      calculateNodeSize_snd StringMap.new t.generateHeader.1 t.root]
    omega
  rw [harith, drop_append_add, drop_append_add, drop_append_add, drop_append_len]

theorem toDtb_memRes (t : DeviceTree) (hm : memsOk t.memory_reservations = true)
    (hsz : t.generateHeader.2.totalsize < 2 ^ 32) :
    (Fdt.mk t.toDtb).memoryReservations = .ok t.memory_reservations := by
  obtain ⟨f0, f1, f2, f3, f4, f5, f6, f7, f8, f9⟩ := toDtb_header t hsz
  have e16 : (Fdt.mk t.toDtb).off_mem_rsvmap = 40 := by
    show headerField t.toDtb 16 = _
    rw [f4, genH_offmem]
  have e8 : (Fdt.mk t.toDtb).off_dt_struct =
      40 + (t.memory_reservations.length + 1) * 16 := by
    show headerField t.toDtb 8 = _
    rw [f2, genH_offstruct]
  unfold Fdt.memoryReservations
  rw [e16, e8]
  rw [if_neg (by omega)]
  have ed : (Fdt.mk t.toDtb).data = t.toDtb := rfl
  rw [ed]
  have hdrop := toDtb_drop_mem t
  have hlen2 := length_sub_of_drop _ _ _ hdrop
  rw [List.length_append, memrsvBytes_length] at hlen2
  have hfuel : t.toDtb.length + 1 = t.memory_reservations.length +
      ((t.toDtb.length - t.memory_reservations.length) + 1) := by omega
  rw [hfuel]
  rw [show 40 + (t.memory_reservations.length + 1) * 16 =
    40 + 16 * t.memory_reservations.length + 16 from by omega]
  exact memResLoop_spec t.toDtb t.memory_reservations 40 _ _ hdrop hm

theorem toDtb_string_resolve (t : DeviceTree) (hw : nodeOk t.root = true)
    (hsz : t.generateHeader.2.totalsize < 2 ^ 32) :
    ∀ nm ∈ dfsPropNames t.root,
      t.generateHeader.1.getOffset nm < 2 ^ 32 ∧
      (Fdt.mk t.toDtb).string (t.generateHeader.1.getOffset nm) = .ok nm := by
  intro nm hmem
  have hsome : ((t.generateHeader.1).lookup nm).isSome = true := by
    rw [genH_sm]
    exact lookup_calculateNodeSize_contains t.root StringMap.new nm hmem
  obtain ⟨o, ho⟩ := isSome_exists hsome
  have hgo : t.generateHeader.1.getOffset nm = o := by
    unfold StringMap.getOffset
    rw [ho]
    rfl
  obtain ⟨e, hfind, heo⟩ := lookup_find _ _ _ ho
  have hsm := smOk_gen t
  obtain ⟨hkey, hle0, tail, hdropE, hbound⟩ := esOk_find _ 0 nm e hsm.1 hfind
  rw [heo] at hdropE hbound
  rw [Nat.sub_zero] at hdropE
  have hnmok := dfsPropNames_ok t.root hw nm hmem
  obtain ⟨hnul, hutf⟩ := nameOk_unfold nm hnmok
  obtain ⟨f0, f1, f2, f3, f4, f5, f6, f7, f8, f9⟩ := toDtb_header t hsz
  have e12 : (Fdt.mk t.toDtb).off_dt_strings =
      40 + (t.memory_reservations.length + 1) * 16 +
        ((calculateNodeSize StringMap.new t.root).2 + FDT_TAGSIZE) := by
    show headerField t.toDtb 12 = _
    rw [f3, genH_offstrings]
  have e32 : (Fdt.mk t.toDtb).size_dt_strings =
      (esBlock t.generateHeader.1.entries).length := by
    show headerField t.toDtb 32 = _
    rw [f8, genH_size_strings, ← genH_sm]
    exact hsm.2
  have hdropS : t.toDtb.drop ((Fdt.mk t.toDtb).off_dt_strings) =
      esBlock t.generateHeader.1.entries := by
    rw [e12, ← genH_offstrings]
    exact toDtb_drop_strings t
  have htot := genH_total t
  rw [← genH_sm] at htot
  have hnext : t.generateHeader.1.next_offset =
      (esBlock t.generateHeader.1.entries).length := hsm.2
  rw [hgo]
  refine ⟨by omega, ?_⟩
  have hd2 : (Fdt.mk t.toDtb).data.drop ((Fdt.mk t.toDtb).off_dt_strings + o) =
      nm ++ 0 :: tail := by
    show t.toDtb.drop ((Fdt.mk t.toDtb).off_dt_strings + o) = _
    rw [drop_add_of_drop t.toDtb ((Fdt.mk t.toDtb).off_dt_strings) o _ hdropS, hdropE]
  apply string_eval (Fdt.mk t.toDtb) o nm tail
  · rw [e32]
    omega
  · rw [hd2, e32]
    apply List.take_of_length_le
    have hlenE : (nm ++ 0 :: tail).length =
        (esBlock t.generateHeader.1.entries).length - o := by
      rw [← hdropE, List.length_drop]
    rw [hlenE]
  · exact hnul
  · exact hutf

theorem toDtb_parse (t : DeviceTree) (hw : nodeOk t.root = true)
    (hsz : t.generateHeader.2.totalsize < 2 ^ 32) :
    (Fdt.mk t.toDtb).root = .ok ((Fdt.mk t.toDtb).off_dt_struct) ∧
    parseNode (Fdt.mk t.toDtb) ((Fdt.mk t.toDtb).off_dt_struct)
      (t.toDtb.length + 1) = .ok t.root := by
  obtain ⟨f0, f1, f2, f3, f4, f5, f6, f7, f8, f9⟩ := toDtb_header t hsz
  have e8 : (Fdt.mk t.toDtb).off_dt_struct =
      40 + (t.memory_reservations.length + 1) * 16 := by
    show headerField t.toDtb 8 = _
    rw [f2, genH_offstruct]
  have hdropN : (Fdt.mk t.toDtb).data.drop ((Fdt.mk t.toDtb).off_dt_struct) =
      nodeBytes t.generateHeader.1 t.root ++
        (be32 FDT_END ++ esBlock t.generateHeader.1.entries) := by
    show t.toDtb.drop ((Fdt.mk t.toDtb).off_dt_struct) = _
    rw [e8]
    exact toDtb_drop_struct t
  constructor
  · unfold Fdt.root
    obtain ⟨X, hX⟩ := nodeBytes_begin t.generateHeader.1 t.root
      (be32 FDT_END ++ esBlock t.generateHeader.1.entries)
    have hdropT : (Fdt.mk t.toDtb).data.drop ((Fdt.mk t.toDtb).off_dt_struct) =
        be32 FDT_BEGIN_NODE ++ X := by
      rw [hdropN, hX]
    rw [readU32_of_drop _ _ _ _ hdropT (by decide)]
    simp
  · have halign : ((Fdt.mk t.toDtb).off_dt_struct) % 4 = 0 := by
      rw [e8]; omega
    have h1 := heightN_le_tok t.root
    have h2 := tokNode_le t.generateHeader.1 t.root
    have h3 := length_sub_of_drop _ _ _ hdropN
    rw [List.length_append] at h3
    have h4 := tokNode_ge t.root
    have hed : (Fdt.mk t.toDtb).data.length = t.toDtb.length := rfl
    rw [hed] at h3
    exact parseNode_spec (Fdt.mk t.toDtb) t.generateHeader.1 t.root
      ((Fdt.mk t.toDtb).off_dt_struct) _ (t.toDtb.length + 1) hdropN halign hw
      (toDtb_string_resolve t hw hsz) (by omega)

/-- Claim C1, amended: for trees whose node and property names are NUL-free
valid UTF-8, whose property values fit u32, whose reservation list contains
no (0,0) entry and fits u64, and whose serialized size fits u32, the round
trip is the identity. -/
theorem c1_round_trip_amended (t : DeviceTree)
    (hw : nodeOk t.root = true) (hm : memsOk t.memory_reservations = true)
    (hsz : t.generateHeader.2.totalsize < 2 ^ 32) :
    ∃ f, Fdt.new t.toDtb = .ok f ∧ DeviceTree.fromFdt f = .ok t := by
  refine ⟨Fdt.mk t.toDtb, toDtb_new t hsz, ?_⟩
  obtain ⟨hroot, hparse⟩ := toDtb_parse t hw hsz
  unfold DeviceTree.fromFdt
  rw [hroot]
  simp only []
  rw [hparse]
  simp only []
  rw [toDtb_memRes t hm hsz]

/-- Claim C1, counterexample: the round trip is not the identity in general —
a tree whose reservation list is [(0,0)] serializes that entry as the block
terminator, so parsing reads back an empty list. -/
theorem c1_round_trip_loses_reservations :
    ∃ (t : DeviceTree) (f : Fdt), Fdt.new t.toDtb = .ok f ∧
      DeviceTree.fromFdt f ≠ .ok t := by
  refine ⟨treeRsv0, Fdt.mk treeRsv0.toDtb, toDtb_new treeRsv0 (by decide), ?_⟩
  obtain ⟨hroot, hparse⟩ := toDtb_parse treeRsv0 (by decide) (by decide)
  have hmem : (Fdt.mk treeRsv0.toDtb).memoryReservations = .ok [] := by
    set_option maxRecDepth 100000 in rfl
  have hF : DeviceTree.fromFdt (Fdt.mk treeRsv0.toDtb) =
      .ok ⟨.mk [0x2F] [] [], []⟩ := by
    unfold DeviceTree.fromFdt
    rw [hroot]
    simp only []
    rw [hparse]
    simp only []
    rw [hmem]
    rfl
  rw [hF]
  intro h
  injection h with h2
  have h3 := congrArg DeviceTree.memory_reservations h2
  simp [treeRsv0] at h3

/-- Claim C1, amended, witness: the sample tree satisfies the
well-formedness side conditions and round-trips. -/
theorem c1_round_trip_amended_witness :
    nodeOk treeSample.root = true ∧ memsOk treeSample.memory_reservations = true ∧
    treeSample.generateHeader.2.totalsize < 2 ^ 32 ∧
    ∃ f, Fdt.new treeSample.toDtb = .ok f ∧
      DeviceTree.fromFdt f = .ok treeSample :=
  ⟨by decide, by decide, by decide,
    c1_round_trip_amended treeSample (by decide) (by decide) (by decide)⟩

/-- Claim C8: the writer's header carries magic 0xd00dfeed, version 17,
last_comp_version 16 and boot_cpuid_phys 0; the interned keys are exactly the
first-seen-deduplicated DFS property names (properties before children), with
no duplicates; the strings block is the final segment of the blob starting at
off_dt_strings, each name followed by a NUL in assigned-offset order; and
every property name's assigned offset (the nameoff the writer emits into each
PROP record) points at its NUL-terminated copy inside the strings block. -/
theorem c8_header_and_strings (t : DeviceTree)
    (hsz : t.generateHeader.2.totalsize < 2 ^ 32) :
    headerField t.toDtb 0 = FDT_MAGIC ∧
    headerField t.toDtb 20 = 17 ∧
    headerField t.toDtb 24 = 16 ∧
    headerField t.toDtb 28 = 0 ∧
    smKeys t.generateHeader.1 = firstSeen (dfsPropNames t.root) ∧
    (smKeys t.generateHeader.1).Nodup ∧
    t.toDtb.drop t.generateHeader.2.off_dt_strings =
      esBlock t.generateHeader.1.entries ∧
    ∀ nm ∈ dfsPropNames t.root, ∃ o tail,
      t.generateHeader.1.lookup nm = some o ∧
      t.generateHeader.1.getOffset nm = o ∧
      (esBlock t.generateHeader.1.entries).drop o = nm ++ 0 :: tail := by
  obtain ⟨f0, f1, f2, f3, f4, f5, f6, f7, f8, f9⟩ := toDtb_header t hsz
  have hkeys : smKeys t.generateHeader.1 = firstSeen (dfsPropNames t.root) := by
    rw [genH_sm]
    rw [smKeys_calculateNodeSize t.root StringMap.new]
    rfl
  refine ⟨by rw [f0, genH_magic], by rw [f5, genH_version], by rw [f6, genH_lcv],
    by rw [f7, genH_boot], hkeys, ?_, toDtb_drop_strings t, ?_⟩
  · rw [hkeys]
    exact firstSeen_nodup _
  · intro nm hmem
    have hsome : ((t.generateHeader.1).lookup nm).isSome = true := by
      rw [genH_sm]
      exact lookup_calculateNodeSize_contains t.root StringMap.new nm hmem
    obtain ⟨o, ho⟩ := isSome_exists hsome
    obtain ⟨e, hfind, heo⟩ := lookup_find _ _ _ ho
    obtain ⟨hkey, hle0, tail, hdropE, hbound⟩ :=
      esOk_find _ 0 nm e (smOk_gen t).1 hfind
    rw [heo] at hdropE
    rw [Nat.sub_zero] at hdropE
    refine ⟨o, tail, ho, ?_, hdropE⟩
    unfold StringMap.getOffset
    rw [ho]
    rfl

/-- Claim C8, witness: the sample tree's size fits u32, and the theorem
applies; its interned keys are the two distinct names in first-seen order. -/
theorem c8_header_and_strings_witness :
    treeSample.generateHeader.2.totalsize < 2 ^ 32 ∧
    smKeys treeSample.generateHeader.1 = firstSeen (dfsPropNames treeSample.root) :=
  ⟨by decide, (c8_header_and_strings treeSample (by decide)).2.2.2.2.1⟩

end Dtoolkit
